import Mathlib

/-! QuantLib: parameter flattening, calibration cost function and the false-position solver

A shallow embedding of

* `ql/ShortRateModels/model.cpp` (`Model::params`, `Model::setParams`,
  `Model::CalibrationFunction::value`, `Model::calibrate`),
* `ql/Solvers1D/falseposition.cpp` (`FalsePosition::solve_`), and
* `Include/Utilities/filteringiterator.h` (the constructor, `operator++(int)` and
  `operator*` of `FilteringIterator`).

C++ objects mutated in place become explicit state: a call that may throw returns the
pair of its outcome (`Except String _`, the string being the message of the `Error`)
and the state the object is in when the call ends, so that whatever was written before a
throw stays visible.  Counted `for` loops whose bound does not change while they run are
structural recursions on the number of iterations still to do.
-/

namespace QuantLib

namespace ShortRateModels

/-! ## Parameter groups -/

/-- Modelled from the spec: the `Parameter` class of `parameter.hpp`, which is not among
the sources.  A parameter group is an ordered sequence of scalars (`params_`), read with
`params()`, of arity `size()`, and written only through `setParam(index, value)`, which
overwrites one slot and leaves the arity alone. -/
structure Parameter (α : Type) where
  params_ : List α
deriving DecidableEq, Repr

namespace Parameter

variable {α : Type}

/-- `Parameter::params()`. -/
def params (a : Parameter α) : List α := a.params_

/-- `Parameter::size()`. -/
def size (a : Parameter α) : Nat := a.params_.length

/-- `Parameter::setParam(i, x)`: `params_[i] = x`. -/
def setParam (a : Parameter α) (i : Nat) (x : α) : Parameter α :=
  { params_ := a.params_.set i x }

end Parameter

instance {α : Type} : Inhabited (Parameter α) := ⟨{ params_ := [] }⟩

/-! ## The model -/

/-- The state of a `Model`: its parameter groups `arguments_`, and a record of the
invocations of the `update()` hook.  Each invocation is recorded with the parameter
groups it saw. -/
structure Model (α : Type) where
  arguments_ : List (Parameter α)
  updates : List (List (Parameter α))
deriving DecidableEq, Repr

namespace Model

variable {α : Type} [Inhabited α]

/-- `arguments_[i]`. -/
def argument (m : Model α) (i : Nat) : Parameter α := m.arguments_.getD i default

/-- `arguments_[i].setParam(j, x)`, as a change of the model. -/
def setParam (m : Model α) (i j : Nat) (x : α) : Model α :=
  { m with arguments_ := m.arguments_.set i ((m.argument i).setParam j x) }

/-- Modelled from the spec: the `update()` hook declared in `model.hpp`, which is not
among the sources.  It recomputes quantities derived from the parameters and notifies;
it does not write to `arguments_`.  The invocation is recorded together with the
parameter groups it was run on. -/
def update (m : Model α) : Model α :=
  { m with updates := m.updates ++ [m.arguments_] }

/-- First loop of `Model::params`:
`for (i=0; i<arguments_.size(); i++) size += arguments_[i].size();`
with `n` iterations still to do. -/
def paramsSize (m : Model α) : Nat → Nat → Nat → Nat
  | 0, _, size => size
  | n + 1, i, size => paramsSize m n (i + 1) (size + (m.argument i).size)

/-- Inner loop of `Model::params`:
`for (Size j=0; j<arguments_[i].size(); j++, k++) params[k] = arguments_[i].params()[j];`
with `n` iterations still to do.  Returns `k` and `params`. -/
def paramsInner (m : Model α) (i : Nat) : Nat → Nat → Nat → List α → Nat × List α
  | 0, _, k, params => (k, params)
  | n + 1, j, k, params =>
      paramsInner m i n (j + 1) (k + 1) (params.set k ((m.argument i).params.getD j default))

/-- Outer loop of `Model::params`, `for (i=0; i<arguments_.size(); i++) ...`, with `n`
iterations still to do.  Returns `k` and `params`. -/
def paramsOuter (m : Model α) : Nat → Nat → Nat → List α → Nat × List α
  | 0, _, k, params => (k, params)
  | n + 1, i, k, params =>
      let r := paramsInner m i (m.argument i).size 0 k params
      paramsOuter m n (i + 1) r.1 r.2

/-- `Model::params`.  `Array params(size)` is an array of `size` slots; the content of a
slot that has not been written is `default`. -/
def params (m : Model α) : List α :=
  let size := paramsSize m m.arguments_.length 0 0
  (paramsOuter m m.arguments_.length 0 0 (List.replicate size default)).2

/-- Inner loop of `Model::setParams`:
```
for (Size j=0; j<arguments_[i].size(); j++, p++) {
    QL_REQUIRE(p!=params.end(),"Parameter array too small");
    arguments_[i].setParam(j, *p);
}
```
with `n` iterations still to do.  The iterator `p` is a position in `params`, and
`params.end()` is `params.length`.  Returns `p`, or the error, and the model. -/
def setParamsInner (params : List α) (i : Nat) :
    Nat → Nat → Nat → Model α → Except String Nat × Model α
  | 0, _, p, m => (.ok p, m)
  | n + 1, j, p, m =>
      if p ≠ params.length then
        setParamsInner params i n (j + 1) (p + 1) (m.setParam i j (params.getD p default))
      else
        (.error "Parameter array too small", m)

/-- Outer loop of `Model::setParams`, `for (Size i=0; i<arguments_.size(); i++) ...`,
with `n` iterations still to do. -/
def setParamsOuter (params : List α) :
    Nat → Nat → Nat → Model α → Except String Nat × Model α
  | 0, _, p, m => (.ok p, m)
  | n + 1, i, p, m =>
      match setParamsInner params i (m.argument i).size 0 p m with
      | (.ok p', m') => setParamsOuter params n (i + 1) p' m'
      | (.error e, m') => (.error e, m')

/-- `Model::setParams`. -/
def setParams (m : Model α) (params : List α) : Except String Unit × Model α :=
  match setParamsOuter params m.arguments_.length 0 0 m with
  | (.ok p, m') =>
      if p = params.length then (.ok (), m'.update)
      else (.error "Parameter array too big!", m')
  | (.error e, m') => (.error e, m')

/-- The total arity of the model: the sum of the arities of its parameter groups. -/
def totalArity (m : Model α) : Nat := (m.arguments_.map Parameter.size).sum

end Model

/-! ### Specification vocabulary for the parameter groups -/

/-- The scalars of a list of parameter groups, in group order and then in index order. -/
def flat {α : Type} : List (Parameter α) → List α
  | [] => []
  | g :: gs => g.params_ ++ flat gs

/-- The arities of a list of parameter groups. -/
def arities {α : Type} (gs : List (Parameter α)) : List Nat := gs.map Parameter.size

/-- The flattened position of the first scalar of group `i`. -/
def offset {α : Type} (gs : List (Parameter α)) (i : Nat) : Nat :=
  ((gs.take i).map Parameter.size).sum

/-- The loop invariant of `Model::setParams` when the iterator stands at position `p`:
the arities are those of the model `m0` the call started from, the first `p` scalars
are the first `p` elements of `v`, the later ones are as in `m0`, and `update()` has not
been invoked. -/
def SetParamsInv {α : Type} (m0 : Model α) (v : List α) (p : Nat) (m : Model α) : Prop :=
  arities m.arguments_ = arities m0.arguments_ ∧
  flat m.arguments_ = v.take p ++ (flat m0.arguments_).drop p ∧
  m.updates = m0.updates

/-- A model with three parameter groups, of arities 2, 0 and 1, all scalars zero, on
which `update()` has never run. -/
def exampleModel : Model Int :=
  { arguments_ := [{ params_ := [0, 0] }, { params_ := [] }, { params_ := [0] }],
    updates := [] }

/-- A model without parameter groups. -/
def emptyModel : Model Int := { arguments_ := [], updates := [] }

/-! ## The calibration cost function -/

/-- Modelled from the spec: the `CalibrationHelper` class, whose header is not among the
sources.  The core sees only `calibrationError()`, a real computed afresh against the state
the shared model is in when it is queried. -/
structure CalibrationHelper (α : Type) where
  calibrationError : Model α → α

instance {α : Type} [Inhabited α] : Inhabited (CalibrationHelper α) :=
  ⟨{ calibrationError := fun _ => default }⟩

namespace CalibrationFunction

variable {α : Type} [Inhabited α] [Zero α] [Add α] [Mul α]

/-- The loop of `Model::CalibrationFunction::value`:
```
for (Size i=0; i<instruments_.size(); i++) {
    double diff = instruments_[i]->calibrationError();
    value += diff*diff;
}
```
with `n` iterations still to do; `model_` is the state of the shared model. -/
def valueLoop (instruments_ : List (CalibrationHelper α)) (model_ : Model α) :
    Nat → Nat → α → α
  | 0, _, value => value
  | n + 1, i, value =>
      let diff := (instruments_.getD i default).calibrationError model_
      valueLoop instruments_ model_ n (i + 1) (value + diff * diff)

/-- `Model::CalibrationFunction::value`.  The macro `QL_SQRT` of the configuration headers
is a parameter.  Returns the value, or the error thrown by `setParams`, and the state the
model is left in. -/
def value (QL_SQRT : α → α) (instruments_ : List (CalibrationHelper α)) (model_ : Model α)
    (params : List α) : Except String α × Model α :=
  match model_.setParams params with
  | (.ok _, m') => (.ok (QL_SQRT (valueLoop instruments_ m' instruments_.length 0 0)), m')
  | (.error e, m') => (.error e, m')

/-- `Model::CalibrationFunction::finiteDifferenceEpsilon`, with the literal `1e-6` a
parameter of the scalar type. -/
def finiteDifferenceEpsilon (oneMillionth : α) : α := oneMillionth

/-- A calibration helper whose error is the distance of the `k`-th scalar of the model,
in flattened order, from `target`. -/
def distanceHelper (k : Nat) (target : Int) : CalibrationHelper Int :=
  { calibrationError := fun m => m.params.getD k 0 - target }

/-- A stand-in for `QL_SQRT` on the integers: the integer square root, the number of
positive naturals whose square is at most `x`. -/
def intSqrt (x : Int) : Int :=
  Int.ofNat ((List.range (x.toNat + 1)).filter (fun r => r * r ≤ x.toNat)).length - 1

end CalibrationFunction

/-! ## Calibration -/

/-- Modelled from the spec: the `Constraint` class of the optimization framework, whose
header is not among the sources: a predicate over a full parameter vector (`test`),
together with an "is-null" sentinel meaning "no constraint". -/
structure Constraint (α : Type) where
  isNull : Bool
  test : List α → Bool

/-- Modelled from the spec: `CompositeConstraint`, whose header is not among the sources:
the composite of two constraints is satisfied iff both members are satisfied. -/
def CompositeConstraint {α : Type} (c1 c2 : Constraint α) : Constraint α :=
  { isNull := false, test := fun params => c1.test params && c2.test params }

/-- Modelled from the spec: what an optimization method does when it minimizes, as far as
the model takes part in it (the optimization framework is not among the sources).  The
method asks for the value of the cost function at vectors of its choice, each choice
depending on the values it got before, and in the end reports the vector of the minimum or
fails. -/
inductive Minimization (α : Type) where
  | minimum (x : List α) : Minimization α
  | failure (e : String) : Minimization α
  | evaluate (x : List α) (next : α → Minimization α) : Minimization α

/-- Modelled from the spec: the optimization `Method` capability, whose header is not among
the sources: it holds the initial value and the mode of its end criteria, and its policy,
opaque to the model, is a minimization chosen from the initial value, the mode and the
test of the constraint of the problem. -/
structure Method (α : Type) where
  initialValue_ : List α
  positiveOptimization_ : Bool
  policy : List α → Bool → (List α → Bool) → Minimization α

namespace Method

variable {α : Type}

/-- `method.setInitialValue(v)`. -/
def setInitialValue (method : Method α) (v : List α) : Method α :=
  { method with initialValue_ := v }

/-- `method.endCriteria().setPositiveOptimization()`. -/
def setPositiveOptimization (method : Method α) : Method α :=
  { method with positiveOptimization_ := true }

end Method

/-- Modelled from the spec: the optimization `Problem` built from a cost function, a
constraint and a method; the cost function of `calibrate` is the `CalibrationFunction` on
the model and `instruments`. -/
structure Problem (α : Type) where
  instruments : List (CalibrationHelper α)
  constraint : Constraint α
  method : Method α

namespace Minimization

variable {α : Type} [Inhabited α] [Zero α] [Add α] [Mul α]

/-- A minimization run on the shared model: each request for a value is a call of
`CalibrationFunction::value`, which sets the vector into the model; an error thrown by the
cost function ends the run, as the failure of the method itself does.  Returns the minimum
reported, or the error, and the state the model is left in. -/
def run (QL_SQRT : α → α) (instruments : List (CalibrationHelper α)) :
    Minimization α → Model α → Except String (List α) × Model α
  | .minimum x, m => (.ok x, m)
  | .failure e, m => (.error e, m)
  | .evaluate x next, m =>
      match CalibrationFunction.value QL_SQRT instruments m x with
      | (.ok y, m') => run QL_SQRT instruments (next y) m'
      | (.error e, m') => (.error e, m')

/-- The vectors passed to the cost function in a run, in the order of the calls, the one on
which the cost function threw, if there is one, included. -/
def passed (QL_SQRT : α → α) (instruments : List (CalibrationHelper α)) :
    Minimization α → Model α → List (List α)
  | .minimum _, _ => []
  | .failure _, _ => []
  | .evaluate x next, m =>
      match CalibrationFunction.value QL_SQRT instruments m x with
      | (.ok y, m') => x :: passed QL_SQRT instruments (next y) m'
      | (.error _, _) => [x]

end Minimization

namespace Problem

variable {α : Type} [Inhabited α] [Zero α] [Add α] [Mul α]

/-- The minimization that `prob.minimize()` runs: the policy of the method on its initial
value, its mode and the constraint of the problem. -/
def minimization (prob : Problem α) : Minimization α :=
  prob.method.policy prob.method.initialValue_ prob.method.positiveOptimization_
    prob.constraint.test

/-- `prob.minimize()` followed by `prob.minimumValue()`, on the shared model. -/
def minimize (QL_SQRT : α → α) (prob : Problem α) (model : Model α) :
    Except String (List α) × Model α :=
  prob.minimization.run QL_SQRT prob.instruments model

end Problem

namespace Model

variable {α : Type} [Inhabited α] [Zero α] [Add α] [Mul α]

/-- `Model::calibrate` up to `Problem prob(f, c, method);`: the choice of the constraint,
the cost function on `instruments`, and the method with its initial value and mode set.
The member `constraint_`, fixed when the model is constructed, is a parameter. -/
def calibrateProblem (constraint_ : Constraint α) (m : Model α)
    (instruments : List (CalibrationHelper α)) (method : Method α)
    (additionalConstraint : Constraint α) : Problem α :=
  let c :=
    if additionalConstraint.isNull then constraint_
    else CompositeConstraint constraint_ additionalConstraint
  let method := (method.setInitialValue m.params).setPositiveOptimization
  { instruments := instruments, constraint := c, method := method }

/-- `Model::calibrate`: the problem is minimized and the minimum is set into the model; an
error thrown while minimizing leaves the function before `setParams(result)`. -/
def calibrate (QL_SQRT : α → α) (constraint_ : Constraint α) (m : Model α)
    (instruments : List (CalibrationHelper α)) (method : Method α)
    (additionalConstraint : Constraint α) : Except String Unit × Model α :=
  let prob := calibrateProblem constraint_ m instruments method additionalConstraint
  match prob.minimize QL_SQRT m with
  | (.ok result, m') => m'.setParams result
  | (.error e, m') => (.error e, m')

end Model

/-- The constraint that accepts every vector and is not null. -/
def acceptAll : Constraint Int := { isNull := false, test := fun _ => true }

/-- The null constraint. -/
def nullConstraint : Constraint Int := { isNull := true, test := fun _ => true }

/-- The constraint that accepts the vectors whose elements are all non-negative. -/
def nonNegative : Constraint Int := { isNull := false, test := fun v => v.all (fun x => 0 ≤ x) }

/-- The constraint that accepts the vectors whose elements are all at most ten. -/
def atMostTen : Constraint Int := { isNull := false, test := fun v => v.all (fun x => x ≤ 10) }

/-- A method that asks for the values at `[1, 2, 3]` and at `[4, 5, 6]` and then reports
`[7, 8, 9]` as the minimum. -/
def probeTwice : Method Int :=
  { initialValue_ := [], positiveOptimization_ := false,
    policy := fun _ _ _ =>
      .evaluate [1, 2, 3] (fun _ => .evaluate [4, 5, 6] (fun _ => .minimum [7, 8, 9])) }

/-- A method that asks for the value at `[1, 2, 3]` and then reports its initial value with
ten added to every element as the minimum. -/
def probeThenShifted : Method Int :=
  { initialValue_ := [5, 5, 5], positiveOptimization_ := false,
    policy := fun initial _ _ =>
      .evaluate [1, 2, 3] (fun _ => .minimum (initial.map (fun x => x + 10))) }

/-- A method that asks the constraint it is given about `[1, 20, 3]` and reports `[1, 1, 1]`
as the minimum if the vector is accepted and `[2, 2, 2]` if it is refused. -/
def askConstraint : Method Int :=
  { initialValue_ := [], positiveOptimization_ := false,
    policy := fun _ _ test => if test [1, 20, 3] then .minimum [1, 1, 1] else .minimum [2, 2, 2] }

/-- A method that asks for the value at `[1, 2, 3]` and then fails. -/
def probeThenFail : Method Int :=
  { initialValue_ := [], positiveOptimization_ := false,
    policy := fun _ _ _ => .evaluate [1, 2, 3] (fun _ => .failure "no progress") }

/-- A method that asks for the value at `[1, 2, 3]` and then at the one-element vector
`[5]`. -/
def probeThenShort : Method Int :=
  { initialValue_ := [], positiveOptimization_ := false,
    policy := fun _ _ _ =>
      .evaluate [1, 2, 3] (fun _ => .evaluate [5] (fun _ => .minimum [1, 2, 3])) }

end ShortRateModels

/-! ## The false-position solver -/

namespace Solvers1D

/-- The members of `Solver1D` that `FalsePosition::solve_` reads and writes (the class is
declared in a header that is not among the sources): the running estimate `root_`, the
bracket `xMin_`, `xMax_` with the values `fxMin_`, `fxMax_` of the objective there, the
budget `maxEvaluations_` and the evaluation counter `evaluationNumber_`. -/
structure FalsePosition (α : Type) where
  root_ : α
  xMin_ : α
  xMax_ : α
  fxMin_ : α
  fxMax_ : α
  maxEvaluations_ : Nat
  evaluationNumber_ : Nat
deriving DecidableEq, Repr

/-- The local variables of `solve_` that live across iterations. -/
structure Locals (α : Type) where
  xl : α
  xh : α
  fl : α
  fh : α
  dx : α
deriving DecidableEq, Repr

/-- What one pass through the body of the loop leaves: the solver, the locals, and the
`del` and `froot` of this pass. -/
structure Pass (α : Type) where
  solver : FalsePosition α
  locals : Locals α
  del : α
  froot : α
deriving DecidableEq, Repr

namespace FalsePosition

variable {α : Type} [LinearOrderedField α]

/-- The code of `solve_` before the loop: "Identify the limits so that xl corresponds to
the low side", then `dx=xh-xl`. -/
def limits (s : FalsePosition α) : Locals α :=
  if s.fxMin_ < 0 then
    { xl := s.xMin_, fl := s.fxMin_, xh := s.xMax_, fh := s.fxMax_, dx := s.xMax_ - s.xMin_ }
  else
    { xl := s.xMax_, fl := s.fxMax_, xh := s.xMin_, fh := s.fxMin_, dx := s.xMin_ - s.xMax_ }

/-- The body of the false-position loop, up to and including `dx=xh-xl`. -/
def pass (f : α → α) (s : FalsePosition α) (l : Locals α) : Pass α :=
  let root := l.xl + l.dx * l.fl / (l.fl - l.fh)
  let froot := f root
  let s' := { s with root_ := root, evaluationNumber_ := s.evaluationNumber_ + 1 }
  let r : Pass α :=
    if froot < 0 then
      { solver := s', del := l.xl - root, froot := froot,
        locals := { l with xl := root, fl := froot } }
    else
      { solver := s', del := l.xh - root, froot := froot,
        locals := { l with xh := root, fh := froot } }
  { r with locals := { r.locals with dx := r.locals.xh - r.locals.xl } }

/-- The convergence criterion `QL_FABS(del) < xAccuracy || froot == 0.0`. -/
def converged (xAccuracy : α) (r : Pass α) : Bool :=
  decide (|r.del| < xAccuracy) || decide (r.froot = 0)

/-- The message of the error thrown when the budget is spent. -/
def maxEvaluationsMessage (maxEvaluations_ : Nat) : String :=
  "FalsePosition: maximum number of function evaluations (" ++ toString maxEvaluations_
    ++ ") exceeded"

/-- The loop `while (evaluationNumber_<=maxEvaluations_) ...` and the `throw` after it.
The first argument bounds the number of passes; `solve_` gives
`maxEvaluations_ + 1 - evaluationNumber_`, which the loop test never lets be used up
before it fails itself, the counter growing by one in each pass. -/
def solveLoop (f : α → α) (xAccuracy : α) :
    Nat → FalsePosition α → Locals α → Except String α × FalsePosition α
  | 0, s, _ => (.error (maxEvaluationsMessage s.maxEvaluations_), s)
  | n + 1, s, l =>
      if s.evaluationNumber_ ≤ s.maxEvaluations_ then
        let r := pass f s l
        if converged xAccuracy r then (.ok r.solver.root_, r.solver)
        else solveLoop f xAccuracy n r.solver r.locals
      else (.error (maxEvaluationsMessage s.maxEvaluations_), s)

/-- `FalsePosition::solve_`. -/
def solve_ (s : FalsePosition α) (f : α → α) (xAccuracy : α) :
    Except String α × FalsePosition α :=
  solveLoop f xAccuracy (s.maxEvaluations_ + 1 - s.evaluationNumber_) s (limits s)

/-- From the state in which the loop test is reached, the state in which it is reached the
next time, if it is: after a pass that the budget allowed and that did not meet the
convergence criterion. -/
def nextHead (f : α → α) (xAccuracy : α) (x : FalsePosition α × Locals α) :
    Option (FalsePosition α × Locals α) :=
  if x.1.evaluationNumber_ ≤ x.1.maxEvaluations_ then
    let r := pass f x.1 x.2
    if converged xAccuracy r then none else some (r.solver, r.locals)
  else none

/-- The state in which the loop test is reached for the `k+1`-th time, if it is, when the
loop is entered in the state `x`. -/
def loopHeadFrom (f : α → α) (xAccuracy : α) :
    Nat → FalsePosition α × Locals α → Option (FalsePosition α × Locals α)
  | 0, x => some x
  | k + 1, x => (loopHeadFrom f xAccuracy k x).bind (nextHead f xAccuracy)

/-- The state, solver and locals, in which `solve_` reaches the loop test for the `k+1`-th
time, if it does. -/
def loopHead (s : FalsePosition α) (f : α → α) (xAccuracy : α) (k : Nat) :
    Option (FalsePosition α × Locals α) :=
  loopHeadFrom f xAccuracy k (s, limits s)

/-! ### The counters as machine integers

In `FalsePosition` above the counters are natural numbers, which cannot go round.  Whether
the loop ends is a matter of the counters as the machine holds them, and that is modelled
here. -/

/-- The members of `Solver1D` that `solve_` reads and writes, the counters held as the
machine holds them. -/
structure MachineFalsePosition (α : Type) where
  root_ : α
  xMin_ : α
  xMax_ : α
  fxMin_ : α
  fxMax_ : α
  maxEvaluations_ : Int
  evaluationNumber_ : Int
deriving DecidableEq, Repr

/-- The solver of the machine seen with natural numbers for counters; used for the part of
`solve_` that does not read the counters. -/
def MachineFalsePosition.exact (s : MachineFalsePosition α) : FalsePosition α :=
  { root_ := s.root_, xMin_ := s.xMin_, xMax_ := s.xMax_, fxMin_ := s.fxMin_,
    fxMax_ := s.fxMax_, maxEvaluations_ := s.maxEvaluations_.toNat,
    evaluationNumber_ := s.evaluationNumber_.toNat }

/-- The solver with the roles of the ends of the bracket exchanged: `(xMin_, fxMin_)` and
`(xMax_, fxMax_)` swapped. -/
def swapEnds (s : FalsePosition α) : FalsePosition α :=
  { s with xMin_ := s.xMax_, xMax_ := s.xMin_, fxMin_ := s.fxMax_, fxMax_ := s.fxMin_ }

/-- The solver on `[0, 2]` for `x^2 - 2`, with the values of the objective at the ends, a
budget of `maxEvaluations_` evaluations and none made. -/
def sqrtTwoSolver (maxEvaluations_ : Nat) : FalsePosition ℚ :=
  { root_ := 0, xMin_ := 0, xMax_ := 2, fxMin_ := -2, fxMax_ := 2,
    maxEvaluations_ := maxEvaluations_, evaluationNumber_ := 0 }

/-- The objective `x ↦ x^2 - 2`. -/
def sqrtTwoObjective (x : ℚ) : ℚ := x * x - 2

/-- The solver on `[0, 2]` for `x^2 - 2` with running estimate `root_`, budget
`maxEvaluations_` and counter `evaluationNumber_`. -/
def sqrtTwoSolverAt (root_ : ℚ) (maxEvaluations_ evaluationNumber_ : Nat) : FalsePosition ℚ :=
  { root_ := root_, xMin_ := 0, xMax_ := 2, fxMin_ := -2, fxMax_ := 2,
    maxEvaluations_ := maxEvaluations_, evaluationNumber_ := evaluationNumber_ }

/-- The locals of `solve_` on `x^2 - 2` when the low end of the bracket is `x` and the high
end is still `2`. -/
def sqrtTwoLocals (x : ℚ) : Locals ℚ :=
  { xl := x, xh := 2, fl := x * x - 2, fh := 2, dx := 2 - x }

/-- The false-position estimate for `x^2 - 2` on the bracket `[x, 2]`, in closed form. -/
def sqrtTwoNext (x : ℚ) : ℚ := (2 * x + 2) / (x + 2)

/-- The objective `x ↦ -x^3 + 4 x^2 - 2 x - 2`, which is `-2` at `0`, `-1` at `1`, `2/27` at
`4/3` and `2` at `2`. -/
def cubicObjective (x : ℚ) : ℚ := -(x * x * x) + 4 * (x * x) - 2 * x - 2

end FalsePosition

end Solvers1D

/-! ## The filtering iterator -/

namespace Utilities

/-- The members of `FilteringIterator<Iterator, UnaryPredicate>`: the predicate `p_`, and
the underlying iterators `it_`, `beforeBegin_` and `end_`, which are positions in a
sequence. -/
structure FilteringIterator (α : Type) where
  p_ : α → Bool
  it_ : Nat
  beforeBegin_ : Nat
  end_ : Nat

namespace FilteringIterator

variable {α : Type}

/-- The loop `while (!p_(*it_) && it_ != end_) it_++;` run on the part of the sequence
that begins at position `it_`, the first argument.  The operands of `&&` are evaluated from
left to right, so `*it_` is taken and `p_` applied before `it_` is compared with `end_`;
taking `*it_` where the sequence has no element is an error.  Returns the position
reached, or the error, and the positions at which `p_(*it_)` was evaluated. -/
def skip (p_ : α → Bool) (end_ : Nat) : List α → Nat → Except String Nat × List Nat
  | [], it_ => (.error "dereference outside the sequence", [it_])
  | x :: rest, it_ =>
      if !p_ x && it_ != end_ then
        let r := skip p_ end_ rest (it_ + 1)
        (r.1, it_ :: r.2)
      else (.ok it_, [it_])

/-- The constructor `FilteringIterator(it, p, beforeBegin, end)` on the sequence `data`.
Returns the iterator, or the error, and the positions at which `p_` was applied. -/
def make (data : List α) (it : Nat) (p : α → Bool) (beforeBegin end_ : Nat) :
    Except String (FilteringIterator α) × List Nat :=
  let r := skip p end_ (data.drop it) it
  (r.1.map (fun it_ => { p_ := p, it_ := it_, beforeBegin_ := beforeBegin, end_ := end_ }),
    r.2)

/-- `operator++(int)`: `temp = *this; do it_++; while (!p_(*it_) && it_ != end_);
return temp;`.  Returns the iterator returned and the iterator after the call, or the
error, and the positions at which `p_` was applied. -/
def postIncrement (data : List α) (i : FilteringIterator α) :
    Except String (FilteringIterator α × FilteringIterator α) × List Nat :=
  let temp := i
  let r := skip i.p_ i.end_ (data.drop (i.it_ + 1)) (i.it_ + 1)
  (r.1.map (fun it_ => (temp, { i with it_ := it_ })), r.2)

/-- `operator*`: `return *it_;`, nothing where the sequence has no element. -/
def deref (data : List α) (i : FilteringIterator α) : Option α := data[i.it_]?

/-- The loop of a client, `while (i != end) { visit(*i); i++; }`, for at most `n` turns:
the positions at which the iterator stands while it is not at `end_`, and how the loop
ended: `some (.ok ())` with the iterator at `end_`, `some (.error e)` when a
post-increment failed with `e`, the position it was called at being the last of the list,
and `none` when the `n` turns were used up. -/
def traverse (data : List α) :
    Nat → FilteringIterator α → List Nat × Option (Except String Unit)
  | 0, _ => ([], none)
  | n + 1, i =>
      if i.it_ = i.end_ then ([], some (.ok ()))
      else
        match (postIncrement data i).1 with
        | .ok (_, next) => (i.it_ :: (traverse data n next).1, (traverse data n next).2)
        | .error e => ([i.it_], some (.error e))

/-- The positions of `[it, end_)` whose element satisfies `p`, in increasing order. -/
def satisfying (data : List α) (p : α → Bool) (it end_ : Nat) : List Nat :=
  (List.range' it (end_ - it)).filter (fun j => (data[j]?).any p)

/-- The predicate "is positive" on the integers. -/
def isPositive (x : Int) : Bool := decide (0 < x)

end FilteringIterator

end Utilities

end QuantLib


/-! # Theorems -/

namespace QuantLib

namespace ShortRateModels

set_option linter.unusedSectionVars false

section Flattening

variable {α : Type} [Inhabited α]

theorem flat_length (gs : List (Parameter α)) : (flat gs).length = (arities gs).sum := by
  induction gs with
  | nil => rfl
  | cons g gs ih => simp [flat, arities, Parameter.size, ih] at *

theorem offset_zero (gs : List (Parameter α)) : offset gs 0 = 0 := by
  simp [offset]

theorem offset_cons_succ (g : Parameter α) (gs : List (Parameter α)) (i : Nat) :
    offset (g :: gs) (i + 1) = g.params_.length + offset gs i := by
  simp [offset, Parameter.size]

theorem offset_length (gs : List (Parameter α)) : offset gs gs.length = (arities gs).sum := by
  simp [offset, arities]

theorem offset_succ (gs : List (Parameter α)) (i : Nat) (hi : i < gs.length) :
    offset gs (i + 1) = offset gs i + (gs.getD i default).size := by
  induction gs generalizing i with
  | nil => simp at hi
  | cons g gs ih =>
    cases i with
    | zero => simp [offset, Parameter.size]
    | succ i =>
      have h := ih i (by simpa using hi)
      rw [offset_cons_succ, offset_cons_succ, h]
      simp [Nat.add_assoc]

theorem offset_add_le (gs : List (Parameter α)) (i : Nat) (hi : i < gs.length) :
    offset gs i + (gs.getD i default).size ≤ (arities gs).sum := by
  induction gs generalizing i with
  | nil => simp at hi
  | cons g gs ih =>
    cases i with
    | zero => simp [offset, arities, Parameter.size]
    | succ i =>
      have h := ih i (by simpa using hi)
      rw [offset_cons_succ]
      simp [arities, Parameter.size] at h ⊢
      omega

/-- Reading slot `j` of group `i` is reading the flattened sequence at `offset i + j`. -/
theorem getD_flat (gs : List (Parameter α)) (i j : Nat) (d : α) (hi : i < gs.length)
    (hj : j < (gs.getD i default).size) :
    (gs.getD i default).params_.getD j d = (flat gs).getD (offset gs i + j) d := by
  induction gs generalizing i with
  | nil => simp at hi
  | cons g gs ih =>
    cases i with
    | zero =>
      have hj' : j < g.params_.length := by simpa [Parameter.size] using hj
      rw [offset_zero, Nat.zero_add]
      show g.params_.getD j d = (g.params_ ++ flat gs).getD j d
      rw [List.getD_append _ _ _ _ hj']
    | succ i =>
      have h := ih i (by simpa using hi) (by simpa using hj)
      rw [offset_cons_succ]
      show (gs.getD i default).params_.getD j d = (g.params_ ++ flat gs).getD _ d
      rw [List.getD_append_right _ _ _ _ (by omega), h]
      congr 1
      omega

/-- Writing slot `j` of group `i` is writing the flattened sequence at `offset i + j`. -/
theorem flat_set (gs : List (Parameter α)) (i j : Nat) (x : α) (hi : i < gs.length)
    (hj : j < (gs.getD i default).size) :
    flat (gs.set i ((gs.getD i default).setParam j x)) = (flat gs).set (offset gs i + j) x := by
  induction gs generalizing i with
  | nil => simp at hi
  | cons g gs ih =>
    cases i with
    | zero =>
      have hj' : j < g.params_.length := by simpa [Parameter.size] using hj
      rw [offset_zero, Nat.zero_add]
      show (g.params_.set j x) ++ flat gs = (g.params_ ++ flat gs).set j x
      rw [List.set_append_left _ _ hj']
    | succ i =>
      have h := ih i (by simpa using hi) (by simpa using hj)
      rw [offset_cons_succ]
      show g.params_ ++ flat (gs.set i ((gs.getD i default).setParam j x))
        = (g.params_ ++ flat gs).set _ x
      rw [List.set_append_right _ _ (by omega), h]
      congr 2
      omega

theorem arities_set (gs : List (Parameter α)) (i j : Nat) (x : α) :
    arities (gs.set i ((gs.getD i default).setParam j x)) = arities gs := by
  induction gs generalizing i with
  | nil => simp
  | cons g gs ih =>
    cases i with
    | zero => simp [arities, Parameter.size, Parameter.setParam]
    | succ i =>
      have h := ih i
      simp only [arities, List.set_cons_succ, List.map_cons, List.getD_cons_succ] at h ⊢
      rw [h]

/-- Parameter groups are determined by their arities and their scalars in flattened order. -/
theorem eq_of_arities_flat (gs hs : List (Parameter α)) (ha : arities gs = arities hs)
    (hf : flat gs = flat hs) : gs = hs := by
  induction gs generalizing hs with
  | nil =>
    cases hs with
    | nil => rfl
    | cons h hs => simp [arities] at ha
  | cons g gs ih =>
    cases hs with
    | nil => simp [arities] at ha
    | cons h hs =>
      simp only [arities, List.map_cons, List.cons.injEq, Parameter.size] at ha
      simp only [flat] at hf
      obtain ⟨h1, h2⟩ := List.append_inj hf ha.1
      have := ih hs ha.2 h2
      cases g; cases h
      simp_all

theorem length_eq_of_arities (gs hs : List (Parameter α)) (ha : arities gs = arities hs) :
    gs.length = hs.length := by
  have := congrArg List.length ha
  simpa [arities] using this

theorem offset_congr (gs hs : List (Parameter α)) (ha : arities gs = arities hs) (i : Nat) :
    offset gs i = offset hs i := by
  have h : ∀ ks : List (Parameter α), offset ks i = ((arities ks).take i).sum := by
    intro ks
    simp [offset, arities, List.map_take]
  rw [h, h, ha]

theorem size_congr (gs hs : List (Parameter α)) (ha : arities gs = arities hs) (i : Nat) :
    (gs.getD i default).size = (hs.getD i default).size := by
  induction gs generalizing hs i with
  | nil =>
    cases hs with
    | nil => rfl
    | cons h hs => simp [arities] at ha
  | cons g gs ih =>
    cases hs with
    | nil => simp [arities] at ha
    | cons h hs =>
      simp only [arities, List.map_cons, List.cons.injEq] at ha
      cases i with
      | zero => simpa using ha.1
      | succ i => simpa using ih hs ha.2 i

/-- Overwriting position `p` of a sequence that agrees with `v` before `p` extends the
agreement by one position. -/
theorem set_take_append_drop (v f : List α) (p : Nat) (d : α) (hv : p < v.length)
    (hf : p < f.length) :
    (v.take p ++ f.drop p).set p (v.getD p d) = v.take (p + 1) ++ f.drop (p + 1) := by
  induction p generalizing v f with
  | zero =>
    cases v with
    | nil => simp at hv
    | cons a v =>
      cases f with
      | nil => simp at hf
      | cons b f => simp
  | succ p ih =>
    cases v with
    | nil => simp at hv
    | cons a v =>
      cases f with
      | nil => simp at hf
      | cons b f =>
        have h := ih v f (by simpa using hv) (by simpa using hf)
        simpa using h

end Flattening

section SetParams

variable {α : Type} [Inhabited α]

theorem SetParamsInv.step (m0 : Model α) (v : List α) (p i j : Nat) (m : Model α)
    (h : SetParamsInv m0 v p m) (hi : i < m0.arguments_.length)
    (hp : p = offset m0.arguments_ i + j) (hj : j < (m0.arguments_.getD i default).size)
    (hv : p < v.length) :
    SetParamsInv m0 v (p + 1) (m.setParam i j (v.getD p default)) := by
  obtain ⟨ha, hf, hu⟩ := h
  have hlen := length_eq_of_arities _ _ ha
  have hsz := size_congr _ _ ha i
  have hoff := offset_congr _ _ ha i
  have htot : p < (flat m0.arguments_).length := by
    rw [flat_length]
    have := offset_add_le m0.arguments_ i hi
    omega
  refine ⟨?_, ?_, hu⟩
  · simp only [Model.setParam, Model.argument]
    rw [arities_set, ha]
  · simp only [Model.setParam, Model.argument]
    rw [flat_set _ _ _ _ (by omega) (by omega), hoff, ← hp, hf]
    exact set_take_append_drop v _ p default hv htot

theorem setParamsInner_spec (m0 : Model α) (v : List α) (i : Nat)
    (hi : i < m0.arguments_.length) :
    ∀ (n j p : Nat) (m : Model α), SetParamsInv m0 v p m →
      p = offset m0.arguments_ i + j → j + n = (m0.arguments_.getD i default).size →
      p ≤ v.length →
      (p + n ≤ v.length → ∃ m', Model.setParamsInner v i n j p m = (.ok (p + n), m') ∧
          SetParamsInv m0 v (p + n) m') ∧
      (v.length < p + n → ∃ m',
          Model.setParamsInner v i n j p m = (.error "Parameter array too small", m') ∧
          SetParamsInv m0 v v.length m') := by
  intro n
  induction n with
  | zero =>
    intro j p m h _ _ hpv
    refine ⟨fun _ => ⟨m, rfl, h⟩, fun hlt => ?_⟩
    omega
  | succ n ih =>
    intro j p m h hp hj hpv
    by_cases hpe : p = v.length
    · refine ⟨fun hle => by omega, fun _ => ⟨m, ?_, hpe ▸ h⟩⟩
      simp [Model.setParamsInner, hpe]
    · have hstep := SetParamsInv.step m0 v p i j m h hi hp (by omega) (by omega)
      have := ih (j + 1) (p + 1) _ hstep (by omega) (by omega) (by omega)
      have hunf : Model.setParamsInner v i (n + 1) j p m
          = Model.setParamsInner v i n (j + 1) (p + 1) (m.setParam i j (v.getD p default)) := by
        simp [Model.setParamsInner, hpe]
      rw [hunf]
      have e : p + 1 + n = p + (n + 1) := by omega
      rw [e] at this
      exact this

theorem setParamsOuter_spec (m0 : Model α) (v : List α) :
    ∀ (n i p : Nat) (m : Model α), SetParamsInv m0 v p m →
      i + n = m0.arguments_.length → p = offset m0.arguments_ i → p ≤ v.length →
      (m0.totalArity ≤ v.length → ∃ m',
          Model.setParamsOuter v n i p m = (.ok m0.totalArity, m') ∧
          SetParamsInv m0 v m0.totalArity m') ∧
      (v.length < m0.totalArity → ∃ m',
          Model.setParamsOuter v n i p m = (.error "Parameter array too small", m') ∧
          SetParamsInv m0 v v.length m') := by
  intro n
  induction n with
  | zero =>
    intro i p m h hi hp hpv
    have hi' : i = m0.arguments_.length := by omega
    have hpt : p = m0.totalArity := by
      rw [hp, hi', offset_length]; rfl
    subst hpt
    exact ⟨fun _ => ⟨m, rfl, h⟩, fun hlt => by omega⟩
  | succ n ih =>
    intro i p m h hi hp hpv
    have hil : i < m0.arguments_.length := by omega
    have hsz : (m.argument i).size = (m0.arguments_.getD i default).size :=
      size_congr _ _ h.1 i
    have hinner := setParamsInner_spec m0 v i hil (m0.arguments_.getD i default).size 0 p m h
      (by omega) (by omega) hpv
    have hnext : offset m0.arguments_ (i + 1) = p + (m0.arguments_.getD i default).size := by
      rw [offset_succ _ _ hil, hp]
    have htot : offset m0.arguments_ (i + 1) ≤ m0.totalArity := by
      have := offset_add_le m0.arguments_ i hil
      rw [offset_succ _ _ hil]
      exact this
    by_cases hle : p + (m0.arguments_.getD i default).size ≤ v.length
    · obtain ⟨m', he, hinv⟩ := hinner.1 hle
      have hrec := ih (i + 1) _ m' hinv (by omega) hnext.symm hle
      have hunf : Model.setParamsOuter v (n + 1) i p m
          = Model.setParamsOuter v n (i + 1) (p + (m0.arguments_.getD i default).size) m' := by
        simp only [Model.setParamsOuter, hsz, he]
      rw [hunf]
      exact hrec
    · obtain ⟨m', he, hinv⟩ := hinner.2 (by omega)
      refine ⟨fun h' => by omega, fun _ => ⟨m', ?_, hinv⟩⟩
      simp only [Model.setParamsOuter, hsz, he]

theorem SetParamsInv.init (m0 : Model α) (v : List α) : SetParamsInv m0 v 0 m0 := by
  refine ⟨rfl, ?_, rfl⟩
  simp

/-- What `Model::setParams` does, by comparison of the length of `v` with the total
arity: the outcome, and the invariant that the model it ends in satisfies. -/
theorem setParams_spec (m0 : Model α) (v : List α) :
    (v.length = m0.totalArity → ∃ m', m0.setParams v = (.ok (), m'.update) ∧
        SetParamsInv m0 v m0.totalArity m') ∧
    (v.length < m0.totalArity → ∃ m',
        m0.setParams v = (.error "Parameter array too small", m') ∧
        SetParamsInv m0 v v.length m') ∧
    (m0.totalArity < v.length → ∃ m',
        m0.setParams v = (.error "Parameter array too big!", m') ∧
        SetParamsInv m0 v m0.totalArity m') := by
  have h := setParamsOuter_spec m0 v m0.arguments_.length 0 0 m0 (SetParamsInv.init m0 v)
    (by omega) (offset_zero _).symm (Nat.zero_le _)
  refine ⟨fun he => ?_, fun hlt => ?_, fun hgt => ?_⟩
  · obtain ⟨m', hm, hinv⟩ := h.1 (by omega)
    exact ⟨m', by simp [Model.setParams, hm, he], hinv⟩
  · obtain ⟨m', hm, hinv⟩ := h.2 hlt
    exact ⟨m', by simp [Model.setParams, hm], hinv⟩
  · obtain ⟨m', hm, hinv⟩ := h.1 (by omega)
    refine ⟨m', ?_, hinv⟩
    have hne : ¬ m0.totalArity = v.length := by omega
    simp [Model.setParams, hm, hne]

theorem flat_length_model (m : Model α) : (flat m.arguments_).length = m.totalArity :=
  flat_length m.arguments_

end SetParams

section Params

variable {α : Type} [Inhabited α]

theorem paramsSize_spec (m : Model α) :
    ∀ (n i size : Nat), i + n = m.arguments_.length →
      m.paramsSize n i size + offset m.arguments_ i = size + m.totalArity := by
  intro n
  induction n with
  | zero =>
    intro i size hi
    have hi' : i = m.arguments_.length := by omega
    subst hi'
    simp [Model.paramsSize, offset_length, Model.totalArity, arities]
  | succ n ih =>
    intro i size hi
    have h := ih (i + 1) (size + (m.argument i).size) (by omega)
    rw [offset_succ _ _ (by omega)] at h
    simp only [Model.paramsSize]
    simp only [Model.argument] at h ⊢
    omega

theorem paramsInner_spec (m : Model α) (R : List α) (hR : R.length = m.totalArity) (i : Nat)
    (hi : i < m.arguments_.length) :
    ∀ (n j k : Nat), k = offset m.arguments_ i + j → j + n = (m.argument i).size →
      m.paramsInner i n j k ((flat m.arguments_).take k ++ R.drop k)
        = (k + n, (flat m.arguments_).take (k + n) ++ R.drop (k + n)) := by
  intro n
  induction n with
  | zero => intro j k _ _; rfl
  | succ n ih =>
    intro j k hk hj
    have hjs : j < (m.arguments_.getD i default).size := by
      simp only [Model.argument] at hj; omega
    have hkt : k < m.totalArity := by
      have := offset_add_le m.arguments_ i hi
      simp only [Model.totalArity, arities] at this ⊢
      omega
    have hread : (m.argument i).params.getD j default = (flat m.arguments_).getD k default := by
      rw [hk]
      exact getD_flat m.arguments_ i j default hi hjs
    simp only [Model.paramsInner]
    rw [hread, set_take_append_drop _ _ k default (by rw [flat_length_model]; exact hkt)
      (by omega)]
    have := ih (j + 1) (k + 1) (by omega) (by omega)
    rw [this]
    have e : k + 1 + n = k + (n + 1) := by omega
    rw [e]

theorem paramsOuter_spec (m : Model α) (R : List α) (hR : R.length = m.totalArity) :
    ∀ (n i k : Nat), i + n = m.arguments_.length → k = offset m.arguments_ i →
      (m.paramsOuter n i k ((flat m.arguments_).take k ++ R.drop k)).2 = flat m.arguments_ := by
  intro n
  induction n with
  | zero =>
    intro i k hi hk
    have hi' : i = m.arguments_.length := by omega
    have hkt : k = m.totalArity := by
      rw [hk, hi', offset_length]; rfl
    simp only [Model.paramsOuter]
    rw [List.take_of_length_le (by rw [flat_length_model]; omega),
      List.drop_of_length_le (by omega), List.append_nil]
  | succ n ih =>
    intro i k hi hk
    simp only [Model.paramsOuter]
    rw [paramsInner_spec m R hR i (by omega) (m.argument i).size 0 k (by omega) (by omega)]
    exact ih (i + 1) _ (by omega) (by rw [offset_succ _ _ (by omega), hk]; rfl)

/-- `Model::params` returns the scalars of the groups in group order, then index order. -/
theorem params_eq_flat (m : Model α) : m.params = flat m.arguments_ := by
  have hs : m.paramsSize m.arguments_.length 0 0 = m.totalArity := by
    have := paramsSize_spec m m.arguments_.length 0 0 (by omega)
    rw [offset_zero] at this
    omega
  have h := paramsOuter_spec m (List.replicate m.totalArity default) (by simp)
    m.arguments_.length 0 0 (by omega) (offset_zero _).symm
  simp only [Model.params, hs]
  simpa using h

end Params

section SetParamsResults

variable {α : Type} [Inhabited α]

theorem totalArity_eq_of_arities (m m' : Model α)
    (h : arities m'.arguments_ = arities m.arguments_) : m'.totalArity = m.totalArity := by
  simp only [Model.totalArity]
  exact congrArg List.sum h

/-- A vector of the right length: the call succeeds, the arities stay, the scalars are
those of `v`, and `update()` has run once, on the parameter groups as they are at the end. -/
theorem setParams_ok (m : Model α) (v : List α) (hv : v.length = m.totalArity) :
    (m.setParams v).1 = .ok () ∧
    arities (m.setParams v).2.arguments_ = arities m.arguments_ ∧
    flat (m.setParams v).2.arguments_ = v ∧
    (m.setParams v).2.updates = m.updates ++ [(m.setParams v).2.arguments_] := by
  obtain ⟨m', he, ha, hf, hu⟩ := (setParams_spec m v).1 hv
  rw [he]
  refine ⟨rfl, ha, ?_, ?_⟩
  · show flat m'.arguments_ = v
    rw [hf, ← hv, List.take_length, List.drop_of_length_le (by rw [flat_length_model]; omega),
      List.append_nil]
  · show m'.updates ++ [m'.arguments_] = m.updates ++ [m'.arguments_]
    rw [hu]

/-- A vector that is too short: the call fails with "too small", the arities stay, the
scalars before position `v.length` are those of `v`, the later ones are untouched, and
`update()` has not run. -/
theorem setParams_small (m : Model α) (v : List α) (hv : v.length < m.totalArity) :
    (m.setParams v).1 = .error "Parameter array too small" ∧
    arities (m.setParams v).2.arguments_ = arities m.arguments_ ∧
    flat (m.setParams v).2.arguments_ = v ++ (flat m.arguments_).drop v.length ∧
    (m.setParams v).2.updates = m.updates := by
  obtain ⟨m', he, ha, hf, hu⟩ := (setParams_spec m v).2.1 hv
  rw [he]
  refine ⟨rfl, ha, ?_, hu⟩
  show flat m'.arguments_ = _
  rw [hf, List.take_length]

/-- A vector that is too long: the call fails with "too big", the arities stay, the
scalars are the leading elements of `v`, and `update()` has not run. -/
theorem setParams_big (m : Model α) (v : List α) (hv : m.totalArity < v.length) :
    (m.setParams v).1 = .error "Parameter array too big!" ∧
    arities (m.setParams v).2.arguments_ = arities m.arguments_ ∧
    flat (m.setParams v).2.arguments_ = v.take m.totalArity ∧
    (m.setParams v).2.updates = m.updates := by
  obtain ⟨m', he, ha, hf, hu⟩ := (setParams_spec m v).2.2 hv
  rw [he]
  refine ⟨rfl, ha, ?_, hu⟩
  show flat m'.arguments_ = _
  rw [hf, List.drop_of_length_le (by rw [flat_length_model]), List.append_nil]

/-- After a successful `setParams(v)`, `params()` reads `v` back. -/
theorem params_after_setParams (m : Model α) (v : List α) (hv : v.length = m.totalArity) :
    (m.setParams v).2.params = v := by
  rw [params_eq_flat, (setParams_ok m v hv).2.2.1]

theorem flat_eq_flatten (gs : List (Parameter α)) :
    flat gs = (gs.map Parameter.params).flatten := by
  induction gs with
  | nil => rfl
  | cons g gs ih => simp [flat, Parameter.params, ih]

end SetParamsResults

/-! ## `Model::params` and `Model::setParams` -/

section ModelClaims

variable {α : Type} [Inhabited α]

/-- C1.  For every model and every vector `v` whose length is the total arity of the
model, `setParams(v)` succeeds and `params()` then returns exactly `v`: the scalars of the
groups, in group order and then index order, are the elements of `v` in order. -/
theorem setParams_params_roundtrip (m : Model α) (v : List α)
    (hv : v.length = m.totalArity) :
    (m.setParams v).1 = .ok () ∧ (m.setParams v).2.params = v ∧
    ((m.setParams v).2.arguments_.map Parameter.params).flatten = v := by
  obtain ⟨hok, _, hf, _⟩ := setParams_ok m v hv
  refine ⟨hok, params_after_setParams m v hv, ?_⟩
  rw [← flat_eq_flatten, hf]

/-- C2.  For every model, whatever the number of groups and their arities,
`setParams(params())` succeeds and leaves every parameter group as it was. -/
theorem setParams_of_params (m : Model α) :
    (m.setParams m.params).1 = .ok () ∧ (m.setParams m.params).2.arguments_ = m.arguments_ := by
  have hv : m.params.length = m.totalArity := by
    rw [params_eq_flat, flat_length_model]
  obtain ⟨hok, ha, hf, _⟩ := setParams_ok m m.params hv
  refine ⟨hok, eq_of_arities_flat _ _ ha ?_⟩
  rw [hf, params_eq_flat]

/-- C3, as amended.  For every model and every vector whose length differs from the total
arity, `setParams` fails, and after the failure the arities of the groups are those before
the call, the scalars at the flattened positions from `min (length v) (total arity)` on
have the values they had before the call, and the scalars before that position hold the
leading elements of `v`. -/
theorem setParams_failure_state (m : Model α) (v : List α) (hv : v.length ≠ m.totalArity) :
    (∃ e, (m.setParams v).1 = .error e) ∧
    (m.setParams v).2.arguments_.map Parameter.size = m.arguments_.map Parameter.size ∧
    (flat (m.setParams v).2.arguments_).drop (min v.length m.totalArity)
      = (flat m.arguments_).drop (min v.length m.totalArity) ∧
    (flat (m.setParams v).2.arguments_).take (min v.length m.totalArity)
      = v.take (min v.length m.totalArity) := by
  rcases Nat.lt_or_gt_of_ne hv with hlt | hgt
  · obtain ⟨he, ha, hf, _⟩ := setParams_small m v hlt
    have hmin : min v.length m.totalArity = v.length := by omega
    rw [hmin, hf]
    refine ⟨⟨_, he⟩, ha, ?_, ?_⟩
    · rw [List.drop_append_of_le_length (by omega), List.drop_length, List.nil_append]
    · rw [List.take_append_of_le_length (by omega)]
  · obtain ⟨he, ha, hf, _⟩ := setParams_big m v hgt
    have hmin : min v.length m.totalArity = m.totalArity := by omega
    have hlen : (flat m.arguments_).length = m.totalArity := flat_length_model m
    rw [hmin, hf]
    refine ⟨⟨_, he⟩, ha, ?_, ?_⟩
    · rw [List.drop_of_length_le (by simp), List.drop_of_length_le (by omega)]
    · rw [List.take_take, Nat.min_self]

/-- C4.  For every model, `params()` is the concatenation of the parameter sequences of
the groups, in group order and within a group in index order, and its length is the sum of
the arities of the groups. -/
theorem params_eq_concatenation (m : Model α) :
    m.params = (m.arguments_.map Parameter.params).flatten ∧
    m.params.length = (m.arguments_.map Parameter.size).sum := by
  refine ⟨?_, ?_⟩
  · rw [params_eq_flat, flat_eq_flatten]
  · rw [params_eq_flat]
    exact flat_length m.arguments_

/-- C5.  For every model and every vector whose length is strictly less than the total
arity, `setParams` fails with "Parameter array too small", and not with the "too big"
error. -/
theorem setParams_too_small (m : Model α) (v : List α) (hv : v.length < m.totalArity) :
    (m.setParams v).1 = .error "Parameter array too small" ∧
    (m.setParams v).1 ≠ .error "Parameter array too big!" := by
  have he := (setParams_small m v hv).1
  refine ⟨he, ?_⟩
  rw [he]
  intro h
  injection h with h
  exact absurd h (by decide)

/-- C6.  For every model and every vector whose length is strictly greater than the total
arity, `setParams` fails with "Parameter array too big!"; a model of total arity zero is
included, with any non-empty vector. -/
theorem setParams_too_big (m : Model α) (v : List α) (hv : m.totalArity < v.length) :
    (m.setParams v).1 = .error "Parameter array too big!" :=
  (setParams_big m v hv).1

/-- C9.  `setParams` invokes `update()` exactly once when it succeeds, and then after all
the parameters have been assigned: the one invocation recorded by the call saw parameter
groups whose scalars are those of `v`.  When it fails with a length mismatch, `update()`
is not invoked. -/
theorem setParams_update_once (m : Model α) (v : List α) :
    (v.length = m.totalArity →
      (m.setParams v).1 = .ok () ∧
      (m.setParams v).2.updates = m.updates ++ [(m.setParams v).2.arguments_] ∧
      ((m.setParams v).2.arguments_.map Parameter.params).flatten = v) ∧
    (v.length ≠ m.totalArity →
      (m.setParams v).1 ≠ .ok () ∧ (m.setParams v).2.updates = m.updates) := by
  refine ⟨fun hv => ?_, fun hv => ?_⟩
  · obtain ⟨hok, _, hf, hu⟩ := setParams_ok m v hv
    exact ⟨hok, hu, by rw [← flat_eq_flatten, hf]⟩
  · rcases Nat.lt_or_gt_of_ne hv with hlt | hgt
    · obtain ⟨he, _, _, hu⟩ := setParams_small m v hlt
      exact ⟨(by rw [he]; intro h; cases h), hu⟩
    · obtain ⟨he, _, _, hu⟩ := setParams_big m v hgt
      exact ⟨(by rw [he]; intro h; cases h), hu⟩

end ModelClaims

section ModelInstances

/-- C1 on the example model: the three scalars are set and read back. -/
theorem setParams_params_roundtrip_witness :
    ([1, 2, 3] : List Int).length = exampleModel.totalArity ∧
    ((exampleModel.setParams [1, 2, 3]).1 = .ok () ∧
     (exampleModel.setParams [1, 2, 3]).2.params = [1, 2, 3] ∧
     ((exampleModel.setParams [1, 2, 3]).2.arguments_.map Parameter.params).flatten
       = [1, 2, 3]) :=
  ⟨by decide, setParams_params_roundtrip exampleModel [1, 2, 3] (by decide)⟩

/-- C3 as stated fails on the example model: the one-element vector `[5]` is refused as
too small, and the first scalar of the first group has been overwritten by then. -/
theorem setParams_failure_partial_update :
    ([5] : List Int).length ≠ exampleModel.totalArity ∧
    (exampleModel.setParams [5]).1 = .error "Parameter array too small" ∧
    exampleModel.arguments_ = [{ params_ := [0, 0] }, { params_ := [] }, { params_ := [0] }] ∧
    (exampleModel.setParams [5]).2.arguments_
      = [{ params_ := [5, 0] }, { params_ := [] }, { params_ := [0] }] ∧
    (exampleModel.setParams [5]).2.arguments_ ≠ exampleModel.arguments_ := by
  refine ⟨by decide, rfl, rfl, rfl, by decide⟩

/-- C3 as amended, on the example model and the vector `[5]`. -/
theorem setParams_failure_state_witness :
    ([5] : List Int).length ≠ exampleModel.totalArity ∧
    ((∃ e, (exampleModel.setParams [5]).1 = .error e) ∧
     (exampleModel.setParams [5]).2.arguments_.map Parameter.size
       = exampleModel.arguments_.map Parameter.size ∧
     (flat (exampleModel.setParams [5]).2.arguments_).drop
         (min ([5] : List Int).length exampleModel.totalArity)
       = (flat exampleModel.arguments_).drop
         (min ([5] : List Int).length exampleModel.totalArity) ∧
     (flat (exampleModel.setParams [5]).2.arguments_).take
         (min ([5] : List Int).length exampleModel.totalArity)
       = ([5] : List Int).take (min ([5] : List Int).length exampleModel.totalArity)) :=
  ⟨by decide, setParams_failure_state exampleModel [5] (by decide)⟩

/-- C5 on the example model: two scalars for three slots. -/
theorem setParams_too_small_witness :
    ([7, 8] : List Int).length < exampleModel.totalArity ∧
    ((exampleModel.setParams [7, 8]).1 = .error "Parameter array too small" ∧
     (exampleModel.setParams [7, 8]).1 ≠ .error "Parameter array too big!") :=
  ⟨by decide, setParams_too_small exampleModel [7, 8] (by decide)⟩

/-- C6 on the model without groups: any non-empty vector is too big. -/
theorem setParams_too_big_witness :
    emptyModel.totalArity < ([4] : List Int).length ∧
    (emptyModel.setParams [4]).1 = .error "Parameter array too big!" :=
  ⟨by decide, setParams_too_big emptyModel [4] (by decide)⟩

/-- C9 on the example model: one invocation of `update()` for a vector of three scalars. -/
theorem setParams_update_once_witness :
    ([1, 2, 3] : List Int).length = exampleModel.totalArity ∧
    (exampleModel.setParams [1, 2, 3]).2.updates
      = [[{ params_ := [1, 2] }, { params_ := [] }, { params_ := [3] }]] :=
  ⟨by decide, ((setParams_update_once exampleModel [1, 2, 3]).1 (by decide)).2.1⟩

end ModelInstances

/-! ## `Model::CalibrationFunction::value` -/

section Calibration

variable {α : Type} [Inhabited α]

theorem valueLoop_eq_sum [AddCommMonoid α] [Mul α] (instruments : List (CalibrationHelper α))
    (m : Model α) :
    ∀ (n i : Nat) (acc : α), i + n = instruments.length →
      CalibrationFunction.valueLoop instruments m n i acc
        = acc + ((instruments.drop i).map
            (fun h => h.calibrationError m * h.calibrationError m)).sum := by
  intro n
  induction n with
  | zero =>
    intro i acc hi
    have : instruments.drop i = [] := List.drop_of_length_le (by omega)
    simp [CalibrationFunction.valueLoop, this]
  | succ n ih =>
    intro i acc hi
    have hlt : i < instruments.length := by omega
    have hd : instruments.drop i = instruments.getD i default :: instruments.drop (i + 1) := by
      rw [List.getD_eq_getElem _ _ hlt]
      exact List.drop_eq_getElem_cons hlt
    simp only [CalibrationFunction.valueLoop]
    rw [ih (i + 1) _ (by omega), hd]
    simp [add_assoc]

theorem value_model [Zero α] [Add α] [Mul α] (QL_SQRT : α → α)
    (instruments : List (CalibrationHelper α)) (m : Model α) (v : List α) :
    (CalibrationFunction.value QL_SQRT instruments m v).2 = (m.setParams v).2 := by
  unfold CalibrationFunction.value
  split <;> rename_i h <;> rw [h]

theorem value_ok [Zero α] [Add α] [Mul α] (QL_SQRT : α → α)
    (instruments : List (CalibrationHelper α)) (m : Model α) (v : List α)
    (hv : v.length = m.totalArity) :
    (CalibrationFunction.value QL_SQRT instruments m v).1
      = .ok (QL_SQRT (CalibrationFunction.valueLoop instruments (m.setParams v).2
          instruments.length 0 0)) := by
  have hok := (setParams_ok m v hv).1
  unfold CalibrationFunction.value
  split
  · rename_i h; rw [h]
  · rename_i h; rw [h] at hok; cases hok

/-- C7.  For every list of instruments and every vector `v` of the total arity of the
model, `value(v)` is the square root of the sum, over all the instruments, of the square of
`calibrationError()`, each error being queried on the model into which `v` has been set;
the sum is not divided by the number of instruments. -/
theorem value_eq_sqrt_sum_squares [AddCommMonoid α] [Mul α] (QL_SQRT : α → α)
    (instruments : List (CalibrationHelper α)) (m : Model α) (v : List α)
    (hv : v.length = m.totalArity) :
    (CalibrationFunction.value QL_SQRT instruments m v).1
      = .ok (QL_SQRT ((instruments.map (fun h =>
          h.calibrationError (m.setParams v).2 * h.calibrationError (m.setParams v).2)).sum)) ∧
    (m.setParams v).2.params = v := by
  refine ⟨?_, params_after_setParams m v hv⟩
  rw [value_ok QL_SQRT instruments m v hv,
    valueLoop_eq_sum instruments _ instruments.length 0 0 (by omega)]
  simp

/-- C8.  For every model and every two vectors `v1`, `v2` of its total arity, evaluating
`value(v1)` and then `value(v2)` succeeds twice and leaves the model with `params()` equal
to `v2`. -/
theorem value_twice_last_wins [Zero α] [Add α] [Mul α] (QL_SQRT : α → α)
    (instruments : List (CalibrationHelper α)) (m : Model α) (v1 v2 : List α)
    (h1 : v1.length = m.totalArity) (h2 : v2.length = m.totalArity) :
    (∃ y, (CalibrationFunction.value QL_SQRT instruments m v1).1 = .ok y) ∧
    (∃ y, (CalibrationFunction.value QL_SQRT instruments
        (CalibrationFunction.value QL_SQRT instruments m v1).2 v2).1 = .ok y) ∧
    (CalibrationFunction.value QL_SQRT instruments
        (CalibrationFunction.value QL_SQRT instruments m v1).2 v2).2.params = v2 := by
  have ha : ((m.setParams v1).2).totalArity = m.totalArity :=
    totalArity_eq_of_arities _ _ (setParams_ok m v1 h1).2.1
  have h2' : v2.length = ((m.setParams v1).2).totalArity := by omega
  rw [value_model QL_SQRT instruments m v1, value_model]
  exact ⟨⟨_, value_ok QL_SQRT instruments m v1 h1⟩, ⟨_, value_ok QL_SQRT instruments _ v2 h2'⟩,
    params_after_setParams _ v2 h2'⟩

end Calibration

section CalibrationInstances

open CalibrationFunction

/-- C7 on the example model: with errors 3 and 4 the value is 5, the root of 9 + 16; a
mean over the two instruments would have given the root of 12. -/
theorem value_eq_sqrt_sum_squares_witness :
    ([3, 0, 4] : List Int).length = exampleModel.totalArity ∧
    (value intSqrt [distanceHelper 0 0, distanceHelper 2 0] exampleModel [3, 0, 4]).1
      = .ok (intSqrt (3 * 3 + 4 * 4)) ∧
    intSqrt (3 * 3 + 4 * 4) = 5 ∧ intSqrt ((3 * 3 + 4 * 4) / 2) = 3 ∧
    (exampleModel.setParams [3, 0, 4]).2.params = [3, 0, 4] :=
  ⟨by decide,
    (value_eq_sqrt_sum_squares intSqrt [distanceHelper 0 0, distanceHelper 2 0] exampleModel
      [3, 0, 4] (by decide)).1,
    by decide, by decide,
    (value_eq_sqrt_sum_squares intSqrt [distanceHelper 0 0, distanceHelper 2 0] exampleModel
      [3, 0, 4] (by decide)).2⟩

/-- C8 on the example model: after `value([1, 2, 3])` and then `value([7, 8, 9])` the
parameters are `[7, 8, 9]`. -/
theorem value_twice_last_wins_witness :
    ([1, 2, 3] : List Int).length = exampleModel.totalArity ∧
    ([7, 8, 9] : List Int).length = exampleModel.totalArity ∧
    (value intSqrt [distanceHelper 0 0]
      (value intSqrt [distanceHelper 0 0] exampleModel [1, 2, 3]).2 [7, 8, 9]).2.params
      = [7, 8, 9] :=
  ⟨by decide, by decide,
    (value_twice_last_wins intSqrt [distanceHelper 0 0] exampleModel [1, 2, 3] [7, 8, 9]
      (by decide) (by decide)).2.2⟩

end CalibrationInstances

end ShortRateModels

/-! ## `FalsePosition::solve_` -/

namespace Solvers1D

namespace FalsePosition

section Solver

variable {α : Type} [LinearOrderedField α]

theorem pass_root (f : α → α) (s : FalsePosition α) (l : Locals α) :
    (pass f s l).solver.root_ = l.xl + l.dx * l.fl / (l.fl - l.fh) := by
  by_cases h : f (l.xl + l.dx * l.fl / (l.fl - l.fh)) < 0 <;> simp [pass, h]

theorem pass_dx (f : α → α) (s : FalsePosition α) (l : Locals α) :
    (pass f s l).locals.dx = (pass f s l).locals.xh - (pass f s l).locals.xl := rfl

theorem limits_dx (s : FalsePosition α) : (limits s).dx = (limits s).xh - (limits s).xl := by
  unfold limits
  split <;> rfl

theorem nextHead_dx (f : α → α) (xAccuracy : α) (x y : FalsePosition α × Locals α)
    (h : nextHead f xAccuracy x = some y) : y.2.dx = y.2.xh - y.2.xl := by
  unfold nextHead at h
  split at h
  · simp only at h
    split at h
    · cases h
    · cases h
      exact pass_dx f x.1 x.2
  · cases h

/-- Each time the loop test is reached, `dx` is `xh - xl`. -/
theorem loopHeadFrom_dx (f : α → α) (xAccuracy : α) :
    ∀ (k : Nat) (x y : FalsePosition α × Locals α), x.2.dx = x.2.xh - x.2.xl →
      loopHeadFrom f xAccuracy k x = some y → y.2.dx = y.2.xh - y.2.xl := by
  intro k
  induction k with
  | zero =>
    intro x y hx h
    simp only [loopHeadFrom, Option.some.injEq] at h
    rw [← h]; exact hx
  | succ k _ =>
    intro x y _ h
    simp only [loopHeadFrom] at h
    obtain ⟨z, _, hz⟩ := Option.bind_eq_some.mp h
    exact nextHead_dx f xAccuracy z y hz

theorem loopHeadFrom_succ (f : α → α) (xAccuracy : α) :
    ∀ (k : Nat) (x : FalsePosition α × Locals α),
      loopHeadFrom f xAccuracy (k + 1) x
        = (nextHead f xAccuracy x).bind (loopHeadFrom f xAccuracy k) := by
  intro k
  induction k with
  | zero =>
    intro x
    simp [loopHeadFrom]
  | succ k ih =>
    intro x
    have h : loopHeadFrom f xAccuracy (k + 1 + 1) x
        = (loopHeadFrom f xAccuracy (k + 1) x).bind (nextHead f xAccuracy) := rfl
    rw [h, ih x]
    cases nextHead f xAccuracy x with
    | none => rfl
    | some y => rfl

/-- A value returned by the loop is the estimate of a pass that began at a loop test the
trace of loop heads records, was allowed by the budget and met the convergence test. -/
theorem solveLoop_ok (f : α → α) (xAccuracy : α) :
    ∀ (n : Nat) (s : FalsePosition α) (l : Locals α) (r : α) (s' : FalsePosition α),
      solveLoop f xAccuracy n s l = (.ok r, s') →
      ∃ k sk lk, loopHeadFrom f xAccuracy k (s, l) = some (sk, lk) ∧
        sk.evaluationNumber_ ≤ sk.maxEvaluations_ ∧
        converged xAccuracy (pass f sk lk) = true ∧
        r = (pass f sk lk).solver.root_ ∧ s' = (pass f sk lk).solver := by
  intro n
  induction n with
  | zero =>
    intro s l r s' h
    simp [solveLoop] at h
  | succ n ih =>
    intro s l r s' h
    simp only [solveLoop] at h
    by_cases hb : s.evaluationNumber_ ≤ s.maxEvaluations_
    · rw [if_pos hb] at h
      by_cases hc : converged xAccuracy (pass f s l) = true
      · rw [if_pos hc] at h
        simp only [Prod.mk.injEq, Except.ok.injEq] at h
        exact ⟨0, s, l, rfl, hb, hc, h.1.symm, h.2.symm⟩
      · rw [if_neg hc] at h
        obtain ⟨k, sk, lk, hk, rest⟩ := ih _ _ r s' h
        refine ⟨k + 1, sk, lk, ?_, rest⟩
        rw [loopHeadFrom_succ]
        have hn : nextHead f xAccuracy (s, l)
            = some ((pass f s l).solver, (pass f s l).locals) := by
          simp [nextHead, hb, hc]
        rw [hn]
        exact hk
    · rw [if_neg hb] at h
      simp at h

/-- C10.  In `solve_` every root estimate is `xl + (xh - xl) * fl / (fl - fh)`, computed
from the ends `(xl, fl)` and `(xh, fh)` of the bracket as it stands when the pass begins:
the linear interpolation between the two ends.  The first estimate uses the ends given on
entry, put in order, and a value that `solve_` returns is such an estimate. -/
theorem root_estimate_interpolates (s : FalsePosition α) (f : α → α) (xAccuracy : α) :
    (∀ (k : Nat) (sk : FalsePosition α) (lk : Locals α),
      loopHead s f xAccuracy k = some (sk, lk) →
      (pass f sk lk).solver.root_ = lk.xl + (lk.xh - lk.xl) * lk.fl / (lk.fl - lk.fh)) ∧
    ((pass f s (limits s)).solver.root_ =
      if s.fxMin_ < 0 then
        s.xMin_ + (s.xMax_ - s.xMin_) * s.fxMin_ / (s.fxMin_ - s.fxMax_)
      else
        s.xMax_ + (s.xMin_ - s.xMax_) * s.fxMax_ / (s.fxMax_ - s.fxMin_)) ∧
    (∀ (r : α) (s' : FalsePosition α), solve_ s f xAccuracy = (.ok r, s') →
      ∃ k sk lk, loopHead s f xAccuracy k = some (sk, lk) ∧
        r = lk.xl + (lk.xh - lk.xl) * lk.fl / (lk.fl - lk.fh)) := by
  have hdx : ∀ (k : Nat) (sk : FalsePosition α) (lk : Locals α),
      loopHead s f xAccuracy k = some (sk, lk) → lk.dx = lk.xh - lk.xl := by
    intro k sk lk h
    exact loopHeadFrom_dx f xAccuracy k (s, limits s) (sk, lk) (limits_dx s) h
  refine ⟨?_, ?_, ?_⟩
  · intro k sk lk h
    rw [pass_root, hdx k sk lk h]
  · rw [pass_root]
    unfold limits
    split <;> rfl
  · intro r s' h
    obtain ⟨k, sk, lk, hk, _, _, hr, _⟩ := solveLoop_ok f xAccuracy _ s (limits s) r s' h
    refine ⟨k, sk, lk, hk, ?_⟩
    rw [hr, pass_root, hdx k sk lk hk]

end Solver

/-- C10 on `x^2 - 2` over `[0, 2]`: the second pass begins with the bracket `[1, 2]`,
where the objective is `-1` and `2`, and its estimate is `1 + (2 - 1) * (-1) / (-1 - 2)`,
that is `4/3`, not the midpoint `3/2`. -/
theorem root_estimate_interpolates_witness :
    loopHead (sqrtTwoSolver 5) sqrtTwoObjective (1 / 1000000) 1
      = some ({ root_ := 1, xMin_ := 0, xMax_ := 2, fxMin_ := -2, fxMax_ := 2,
                maxEvaluations_ := 5, evaluationNumber_ := 1 },
              { xl := 1, xh := 2, fl := -1, fh := 2, dx := 1 }) ∧
    (pass sqrtTwoObjective
        { root_ := 1, xMin_ := 0, xMax_ := 2, fxMin_ := -2, fxMax_ := 2,
          maxEvaluations_ := 5, evaluationNumber_ := 1 }
        { xl := 1, xh := 2, fl := -1, fh := 2, dx := 1 }).solver.root_
      = 1 + (2 - 1) * (-1) / (-1 - 2) ∧
    (1 + (2 - 1) * (-1) / (-1 - 2) : ℚ) = 4 / 3 ∧ (4 / 3 : ℚ) ≠ (1 + 2) / 2 := by
  have h : loopHead (sqrtTwoSolver 5) sqrtTwoObjective (1 / 1000000) 1
      = some ({ root_ := 1, xMin_ := 0, xMax_ := 2, fxMin_ := -2, fxMax_ := 2,
                maxEvaluations_ := 5, evaluationNumber_ := 1 },
              { xl := 1, xh := 2, fl := -1, fh := 2, dx := 1 }) := by
    simp [loopHead, loopHeadFrom, nextHead, pass, converged, limits, sqrtTwoSolver,
      sqrtTwoObjective]
    norm_num
  exact ⟨h, (root_estimate_interpolates (sqrtTwoSolver 5) sqrtTwoObjective (1 / 1000000)).1
    1 _ _ h, by norm_num, by norm_num⟩

section SolverTrace

variable {α : Type} [LinearOrderedField α]

theorem pass_solver (f : α → α) (s : FalsePosition α) (l : Locals α) :
    (pass f s l).solver
      = { s with root_ := l.xl + l.dx * l.fl / (l.fl - l.fh),
                 evaluationNumber_ := s.evaluationNumber_ + 1 } := by
  by_cases h : f (l.xl + l.dx * l.fl / (l.fl - l.fh)) < 0 <;> simp [pass, h]

theorem pass_froot (f : α → α) (s : FalsePosition α) (l : Locals α) :
    (pass f s l).froot = f (pass f s l).solver.root_ := by
  by_cases h : f (l.xl + l.dx * l.fl / (l.fl - l.fh)) < 0 <;> simp [pass, h]

theorem pass_evaluationNumber (f : α → α) (s : FalsePosition α) (l : Locals α) :
    (pass f s l).solver.evaluationNumber_ = s.evaluationNumber_ + 1 := by
  rw [pass_solver]

theorem pass_maxEvaluations (f : α → α) (s : FalsePosition α) (l : Locals α) :
    (pass f s l).solver.maxEvaluations_ = s.maxEvaluations_ := by
  rw [pass_solver]

theorem converged_iff (xAccuracy : α) (r : Pass α) :
    converged xAccuracy r = true ↔ (|r.del| < xAccuracy ∨ r.froot = 0) := by
  simp [converged]

theorem nextHead_eq_some (f : α → α) (xAccuracy : α) (x y : FalsePosition α × Locals α) :
    nextHead f xAccuracy x = some y ↔
      x.1.evaluationNumber_ ≤ x.1.maxEvaluations_ ∧
      converged xAccuracy (pass f x.1 x.2) = false ∧
      y = ((pass f x.1 x.2).solver, (pass f x.1 x.2).locals) := by
  unfold nextHead
  by_cases hb : x.1.evaluationNumber_ ≤ x.1.maxEvaluations_
  · by_cases hc : converged xAccuracy (pass f x.1 x.2) = true
    · simp [hb, hc]
    · simp [hb, hc, eq_comm]
  · simp [hb]

theorem loopHeadFrom_succ_eq_some (f : α → α) (xAccuracy : α) (k : Nat)
    (x y : FalsePosition α × Locals α) :
    loopHeadFrom f xAccuracy (k + 1) x = some y ↔
      ∃ z, loopHeadFrom f xAccuracy k x = some z ∧ nextHead f xAccuracy z = some y := by
  simp only [loopHeadFrom]
  exact Option.bind_eq_some

/-- At the loop test reached for the `k+1`-th time the counter has grown by `k`, and the
budget is the one given on entry. -/
theorem loopHeadFrom_counter (f : α → α) (xAccuracy : α) :
    ∀ (k : Nat) (x y : FalsePosition α × Locals α), loopHeadFrom f xAccuracy k x = some y →
      y.1.evaluationNumber_ = x.1.evaluationNumber_ + k ∧
      y.1.maxEvaluations_ = x.1.maxEvaluations_ := by
  intro k
  induction k with
  | zero =>
    intro x y h
    simp only [loopHeadFrom, Option.some.injEq] at h
    subst h
    exact ⟨rfl, rfl⟩
  | succ k ih =>
    intro x y h
    obtain ⟨z, hz, hn⟩ := (loopHeadFrom_succ_eq_some f xAccuracy k x y).mp h
    obtain ⟨h1, h2⟩ := ih x z hz
    obtain ⟨_, _, hy⟩ := (nextHead_eq_some f xAccuracy z y).mp hn
    subst hy
    refine ⟨?_, ?_⟩
    · show (pass f z.1 z.2).solver.evaluationNumber_ = _
      rw [pass_evaluationNumber, h1]; omega
    · show (pass f z.1 z.2).solver.maxEvaluations_ = _
      rw [pass_maxEvaluations, h2]

/-- Before the loop test is reached for the `k+1`-th time it has been reached `k` times,
each time within the budget and followed by a pass that did not meet the criterion. -/
theorem loopHeadFrom_earlier (f : α → α) (xAccuracy : α) :
    ∀ (k : Nat) (x y : FalsePosition α × Locals α), loopHeadFrom f xAccuracy k x = some y →
      ∀ j, j < k → ∃ z, loopHeadFrom f xAccuracy j x = some z ∧
        z.1.evaluationNumber_ ≤ z.1.maxEvaluations_ ∧
        converged xAccuracy (pass f z.1 z.2) = false := by
  intro k
  induction k with
  | zero => intro x y _ j hj; omega
  | succ k ih =>
    intro x y h j hj
    obtain ⟨z, hz, hn⟩ := (loopHeadFrom_succ_eq_some f xAccuracy k x y).mp h
    by_cases hjk : j = k
    · subst hjk
      obtain ⟨hb, hc, _⟩ := (nextHead_eq_some f xAccuracy z y).mp hn
      exact ⟨z, hz, hb, hc⟩
    · exact ih x z hz j (by omega)

/-- A pass that the budget allows and that meets the criterion, begun at a loop test the
trace records, is where the loop returns, when the bound on the passes is large enough. -/
theorem solveLoop_of_loopHeadFrom (f : α → α) (xAccuracy : α) :
    ∀ (n k : Nat) (s : FalsePosition α) (l : Locals α) (y : FalsePosition α × Locals α),
      loopHeadFrom f xAccuracy k (s, l) = some y →
      y.1.evaluationNumber_ ≤ y.1.maxEvaluations_ →
      converged xAccuracy (pass f y.1 y.2) = true → k < n →
      solveLoop f xAccuracy n s l
        = (.ok (pass f y.1 y.2).solver.root_, (pass f y.1 y.2).solver) := by
  intro n
  induction n with
  | zero => intro k s l y _ _ _ hk; omega
  | succ n ih =>
    intro k s l y h hb hc hk
    cases k with
    | zero =>
      simp only [loopHeadFrom, Option.some.injEq] at h
      subst h
      simp only [solveLoop]
      rw [if_pos hb, if_pos hc]
    | succ k =>
      rw [loopHeadFrom_succ] at h
      obtain ⟨z, hz, hk'⟩ := Option.bind_eq_some.mp h
      obtain ⟨hb0, hc0, hz'⟩ := (nextHead_eq_some f xAccuracy (s, l) z).mp hz
      subst hz'
      simp only [solveLoop]
      rw [if_pos hb0, hc0]
      simp only [Bool.false_eq_true, if_false]
      exact ih k _ _ y hk' hb hc (by omega)

/-- When the loop fails, it is with the max-evaluations message, in a state in which the
loop test was reached, at which either the test failed or the bound on the passes was
used up. -/
theorem solveLoop_error (f : α → α) (xAccuracy : α) :
    ∀ (n : Nat) (s : FalsePosition α) (l : Locals α) (e : String) (s' : FalsePosition α),
      solveLoop f xAccuracy n s l = (.error e, s') →
      e = maxEvaluationsMessage s.maxEvaluations_ ∧
      ∃ k lk, k ≤ n ∧ loopHeadFrom f xAccuracy k (s, l) = some (s', lk) ∧
        (k = n ∨ s'.maxEvaluations_ < s'.evaluationNumber_) := by
  intro n
  induction n with
  | zero =>
    intro s l e s' h
    simp only [solveLoop, Prod.mk.injEq, Except.error.injEq] at h
    obtain ⟨h1, h2⟩ := h
    subst h2
    exact ⟨h1.symm, 0, l, Nat.le_refl _, rfl, Or.inl rfl⟩
  | succ n ih =>
    intro s l e s' h
    simp only [solveLoop] at h
    by_cases hb : s.evaluationNumber_ ≤ s.maxEvaluations_
    · rw [if_pos hb] at h
      by_cases hc : converged xAccuracy (pass f s l) = true
      · rw [if_pos hc] at h
        simp at h
      · rw [if_neg hc] at h
        obtain ⟨he, k, lk, hk, hh, hor⟩ := ih _ _ e s' h
        rw [pass_maxEvaluations] at he
        refine ⟨he, k + 1, lk, by omega, ?_, ?_⟩
        · rw [loopHeadFrom_succ]
          have hn : nextHead f xAccuracy (s, l)
              = some ((pass f s l).solver, (pass f s l).locals) := by
            simp [nextHead, hb, hc]
          rw [hn]
          exact hh
        · rcases hor with h1 | h2
          · exact Or.inl (by omega)
          · exact Or.inr h2
    · rw [if_neg hb] at h
      simp only [Prod.mk.injEq, Except.error.injEq] at h
      obtain ⟨h1, h2⟩ := h
      subst h2
      exact ⟨h1.symm, 0, l, by omega, rfl, Or.inr (by omega)⟩

/-- The loop ends in one of two ways. -/
theorem solveLoop_cases (f : α → α) (xAccuracy : α) (n : Nat) (s : FalsePosition α)
    (l : Locals α) :
    (∃ r s', solveLoop f xAccuracy n s l = (.ok r, s')) ∨
    (∃ e s', solveLoop f xAccuracy n s l = (.error e, s')) := by
  rcases h : solveLoop f xAccuracy n s l with ⟨o, s'⟩
  cases o with
  | ok r => exact Or.inl ⟨r, s', rfl⟩
  | error e => exact Or.inr ⟨e, s', rfl⟩

theorem limits_signs (s : FalsePosition α) (h : s.fxMin_ * s.fxMax_ < 0) :
    (limits s).fl < 0 ∧ 0 < (limits s).fh := by
  unfold limits
  by_cases hm : s.fxMin_ < 0
  · rw [if_pos hm]
    refine ⟨hm, ?_⟩
    by_contra hx
    have := mul_nonneg_of_nonpos_of_nonpos (le_of_lt hm) (not_lt.mp hx)
    exact absurd h (not_lt.mpr this)
  · rw [if_neg hm]
    have hm0 : 0 ≤ s.fxMin_ := not_lt.mp hm
    have hne : s.fxMin_ ≠ 0 := by
      intro h0
      rw [h0, zero_mul] at h
      exact lt_irrefl _ h
    refine ⟨?_, lt_of_le_of_ne hm0 (Ne.symm hne)⟩
    by_contra hx
    have := mul_nonneg hm0 (not_lt.mp hx)
    exact absurd h (not_lt.mpr this)

theorem pass_signs (f : α → α) (xAccuracy : α) (t : FalsePosition α) (l : Locals α)
    (hl : l.fl < 0) (hh : 0 < l.fh) (hc : converged xAccuracy (pass f t l) = false) :
    (pass f t l).locals.fl < 0 ∧ 0 < (pass f t l).locals.fh := by
  have hne : ¬ (pass f t l).froot = 0 := by
    intro h0
    have : converged xAccuracy (pass f t l) = true := (converged_iff _ _).mpr (Or.inr h0)
    rw [hc] at this
    cases this
  by_cases h : f (l.xl + l.dx * l.fl / (l.fl - l.fh)) < 0
  · simp [pass, h, hh]
  · have hf : (pass f t l).froot = f (l.xl + l.dx * l.fl / (l.fl - l.fh)) := by
      simp [pass, h]
    rw [hf] at hne
    have hpos : 0 < f (l.xl + l.dx * l.fl / (l.fl - l.fh)) :=
      lt_of_le_of_ne (not_lt.mp h) (Ne.symm hne)
    simp [pass, h, hl, hpos]

theorem loopHeadFrom_signs (f : α → α) (xAccuracy : α) :
    ∀ (k : Nat) (x y : FalsePosition α × Locals α), x.2.fl < 0 → 0 < x.2.fh →
      loopHeadFrom f xAccuracy k x = some y → y.2.fl < 0 ∧ 0 < y.2.fh := by
  intro k
  induction k with
  | zero =>
    intro x y h1 h2 h
    simp only [loopHeadFrom, Option.some.injEq] at h
    subst h
    exact ⟨h1, h2⟩
  | succ k ih =>
    intro x y h1 h2 h
    obtain ⟨z, hz, hn⟩ := (loopHeadFrom_succ_eq_some f xAccuracy k x y).mp h
    obtain ⟨hz1, hz2⟩ := ih x z h1 h2 hz
    obtain ⟨_, hc, hy⟩ := (nextHead_eq_some f xAccuracy z y).mp hn
    subst hy
    exact pass_signs f xAccuracy z.1 z.2 hz1 hz2 hc

/-- C11.  If `fxMin_ * fxMax_ < 0` on entry to `solve_`, then each time the loop test is
reached the working bracket has `fl < 0 < fh`: the ordering of the limits before the loop
establishes it, and a pass that does not end the loop, replacing the end whose value has
the sign of `f(root_)`, preserves it. -/
theorem bracket_signs_invariant (s : FalsePosition α) (f : α → α) (xAccuracy : α)
    (h : s.fxMin_ * s.fxMax_ < 0) :
    ((limits s).fl < 0 ∧ 0 < (limits s).fh) ∧
    (∀ (t : FalsePosition α) (l : Locals α), l.fl < 0 → 0 < l.fh →
      converged xAccuracy (pass f t l) = false →
      (pass f t l).locals.fl < 0 ∧ 0 < (pass f t l).locals.fh) ∧
    (∀ (k : Nat) (sk : FalsePosition α) (lk : Locals α),
      loopHead s f xAccuracy k = some (sk, lk) → lk.fl < 0 ∧ 0 < lk.fh) := by
  have h0 := limits_signs s h
  refine ⟨h0, fun t l hl hh hc => pass_signs f xAccuracy t l hl hh hc, ?_⟩
  intro k sk lk hk
  exact loopHeadFrom_signs f xAccuracy k (s, limits s) (sk, lk) h0.1 h0.2 hk

theorem solve_ok_iff (s : FalsePosition α) (f : α → α) (xAccuracy : α) (r : α)
    (s' : FalsePosition α) :
    solve_ s f xAccuracy = (.ok r, s') ↔
      ∃ k sk lk, loopHead s f xAccuracy k = some (sk, lk) ∧
        sk.evaluationNumber_ ≤ sk.maxEvaluations_ ∧
        converged xAccuracy (pass f sk lk) = true ∧
        r = (pass f sk lk).solver.root_ ∧ s' = (pass f sk lk).solver := by
  constructor
  · intro h
    exact solveLoop_ok f xAccuracy _ s (limits s) r s' h
  · rintro ⟨k, sk, lk, hk, hb, hc, hr, hs⟩
    obtain ⟨h1, h2⟩ := loopHeadFrom_counter f xAccuracy k (s, limits s) (sk, lk) hk
    have hfuel : k < s.maxEvaluations_ + 1 - s.evaluationNumber_ := by
      simp only at h1 h2
      omega
    have := solveLoop_of_loopHeadFrom f xAccuracy _ k s (limits s) (sk, lk) hk hb hc hfuel
    rw [hr, hs]
    exact this

/-- C12.  `solve_` returns at the first pass, among those the budget allows, at which
`|del| < xAccuracy` or `f(root_) == 0`, and returns the `root_` of that pass: it returns
`r` exactly when such a pass is reached and `r` is its estimate, and the passes before it
did not meet the test.  Hence, whenever `solve_` returns `r`, either `f(r) = 0` or the
last pass had `|del| < xAccuracy`. -/
theorem solve_returns_at_first_converged (s : FalsePosition α) (f : α → α) (xAccuracy : α) :
    (∀ (r : α) (s' : FalsePosition α), solve_ s f xAccuracy = (.ok r, s') ↔
      ∃ k sk lk, loopHead s f xAccuracy k = some (sk, lk) ∧
        sk.evaluationNumber_ ≤ sk.maxEvaluations_ ∧
        (|(pass f sk lk).del| < xAccuracy ∨ f (pass f sk lk).solver.root_ = 0) ∧
        r = (pass f sk lk).solver.root_ ∧ s' = (pass f sk lk).solver) ∧
    (∀ (k : Nat) (sk : FalsePosition α) (lk : Locals α),
      loopHead s f xAccuracy k = some (sk, lk) → ∀ j, j < k →
        ∃ sj lj, loopHead s f xAccuracy j = some (sj, lj) ∧
          ¬ (|(pass f sj lj).del| < xAccuracy ∨ f (pass f sj lj).solver.root_ = 0)) ∧
    (∀ (r : α) (s' : FalsePosition α), solve_ s f xAccuracy = (.ok r, s') →
      f r = 0 ∨ ∃ k sk lk, loopHead s f xAccuracy k = some (sk, lk) ∧
        r = (pass f sk lk).solver.root_ ∧ |(pass f sk lk).del| < xAccuracy) := by
  refine ⟨?_, ?_, ?_⟩
  · intro r s'
    rw [solve_ok_iff]
    constructor
    · rintro ⟨k, sk, lk, hk, hb, hc, hr, hs⟩
      refine ⟨k, sk, lk, hk, hb, ?_, hr, hs⟩
      rw [← pass_froot f sk lk]
      exact (converged_iff _ _).mp hc
    · rintro ⟨k, sk, lk, hk, hb, hc, hr, hs⟩
      refine ⟨k, sk, lk, hk, hb, ?_, hr, hs⟩
      rw [← pass_froot f sk lk] at hc
      exact (converged_iff _ _).mpr hc
  · intro k sk lk hk j hj
    obtain ⟨z, hz, _, hc⟩ :=
      loopHeadFrom_earlier f xAccuracy k (s, limits s) (sk, lk) hk j hj
    refine ⟨z.1, z.2, hz, ?_⟩
    rw [← pass_froot f z.1 z.2]
    intro hcon
    have := (converged_iff _ _).mpr hcon
    rw [hc] at this
    cases this
  · intro r s' h
    obtain ⟨k, sk, lk, hk, _, hc, hr, _⟩ := (solve_ok_iff s f xAccuracy r s').mp h
    rcases (converged_iff _ _).mp hc with hd | h0
    · exact Or.inr ⟨k, sk, lk, hk, hr, hd⟩
    · left
      rw [hr, ← pass_froot f sk lk]
      exact h0

theorem loopHead_counter_le (s : FalsePosition α) (f : α → α) (xAccuracy : α)
    (h : s.evaluationNumber_ ≤ s.maxEvaluations_) (k : Nat) (sk : FalsePosition α)
    (lk : Locals α) (hk : loopHead s f xAccuracy k = some (sk, lk)) :
    sk.evaluationNumber_ ≤ s.maxEvaluations_ + 1 := by
  cases k with
  | zero =>
    simp only [loopHead, loopHeadFrom, Option.some.injEq, Prod.mk.injEq] at hk
    rw [← hk.1]
    omega
  | succ k =>
    obtain ⟨z, hz, hn⟩ := (loopHeadFrom_succ_eq_some f xAccuracy k _ _).mp hk
    obtain ⟨hb, _, hy⟩ := (nextHead_eq_some f xAccuracy z _).mp hn
    obtain ⟨_, hmax⟩ := loopHeadFrom_counter f xAccuracy k _ _ hz
    simp only [Prod.mk.injEq] at hy
    rw [hy.1, pass_evaluationNumber]
    simp only at hmax
    omega

/-- C15, as amended.  For every call of `solve_` entered with
`evaluationNumber_ <= maxEvaluations_`, the counter never exceeds `maxEvaluations_ + 1`,
neither when the loop test is reached nor when the call ends; and when the call fails the
counter is `maxEvaluations_ + 1`. -/
theorem evaluationNumber_le_succ_max (s : FalsePosition α) (f : α → α) (xAccuracy : α)
    (h : s.evaluationNumber_ ≤ s.maxEvaluations_) :
    (∀ (k : Nat) (sk : FalsePosition α) (lk : Locals α),
      loopHead s f xAccuracy k = some (sk, lk) →
      sk.evaluationNumber_ ≤ s.maxEvaluations_ + 1) ∧
    (solve_ s f xAccuracy).2.evaluationNumber_ ≤ s.maxEvaluations_ + 1 ∧
    (∀ (e : String) (s' : FalsePosition α), solve_ s f xAccuracy = (.error e, s') →
      s'.evaluationNumber_ = s.maxEvaluations_ + 1) := by
  have herr : ∀ (e : String) (s' : FalsePosition α), solve_ s f xAccuracy = (.error e, s') →
      s'.evaluationNumber_ = s.maxEvaluations_ + 1 := by
    intro e s' he
    obtain ⟨_, k, lk, _, hk, hor⟩ := solveLoop_error f xAccuracy _ s (limits s) e s' he
    have hle := loopHead_counter_le s f xAccuracy h k s' lk hk
    obtain ⟨h1, h2⟩ := loopHeadFrom_counter f xAccuracy k _ _ hk
    simp only at h1 h2
    rcases hor with hkn | hgt
    · omega
    · omega
  refine ⟨fun k sk lk hk => loopHead_counter_le s f xAccuracy h k sk lk hk, ?_, herr⟩
  rcases solveLoop_cases f xAccuracy (s.maxEvaluations_ + 1 - s.evaluationNumber_) s
    (limits s) with ⟨r, s', hok⟩ | ⟨e, s', he⟩
  · obtain ⟨k, sk, lk, hk, hb, _, _, hs⟩ := (solve_ok_iff s f xAccuracy r s').mp hok
    obtain ⟨_, h2⟩ := loopHeadFrom_counter f xAccuracy k _ _ hk
    simp only at h2
    have : solve_ s f xAccuracy = (.ok r, s') := hok
    rw [this, hs]
    show (pass f sk lk).solver.evaluationNumber_ ≤ _
    rw [pass_evaluationNumber]
    omega
  · have : solve_ s f xAccuracy = (.error e, s') := he
    rw [this]
    show s'.evaluationNumber_ ≤ _
    rw [herr e s' he]

/-- In every pass `del` is the end of the bracket that the pass replaces minus the root
estimate of the pass. -/
theorem pass_del (f : α → α) (t : FalsePosition α) (m : Locals α) :
    (pass f t m).del = (if (pass f t m).froot < 0 then m.xl else m.xh)
      - (pass f t m).solver.root_ := by
  by_cases h : f (m.xl + m.dx * m.fl / (m.fl - m.fh)) < 0 <;> simp [pass, h]

/-- Two passes in a row, from any state: `del` of the second is the estimate of the first
minus the estimate of the second when both replace the same end, and the end that the
first left in place minus the estimate of the second otherwise. -/
theorem del_of_two_passes (f : α → α) (s : FalsePosition α) (l : Locals α) :
    ((pass f (pass f s l).solver (pass f s l).locals).del
      = (if (pass f (pass f s l).solver (pass f s l).locals).froot < 0
          then (pass f s l).locals.xl else (pass f s l).locals.xh)
        - (pass f (pass f s l).solver (pass f s l).locals).solver.root_) ∧
    (((pass f s l).froot < 0 ↔ (pass f (pass f s l).solver (pass f s l).locals).froot < 0) →
      (pass f (pass f s l).solver (pass f s l).locals).del
        = (pass f s l).solver.root_
          - (pass f (pass f s l).solver (pass f s l).locals).solver.root_) ∧
    ((pass f s l).froot < 0 →
      ¬ (pass f (pass f s l).solver (pass f s l).locals).froot < 0 →
      (pass f (pass f s l).solver (pass f s l).locals).del
        = l.xh - (pass f (pass f s l).solver (pass f s l).locals).solver.root_) ∧
    (¬ (pass f s l).froot < 0 →
      (pass f (pass f s l).solver (pass f s l).locals).froot < 0 →
      (pass f (pass f s l).solver (pass f s l).locals).del
        = l.xl - (pass f (pass f s l).solver (pass f s l).locals).solver.root_) := by
  have hdel : ∀ (t : FalsePosition α) (m : Locals α),
      (pass f t m).del = (if (pass f t m).froot < 0 then m.xl else m.xh)
        - (pass f t m).solver.root_ := by
    intro t m
    by_cases h : f (m.xl + m.dx * m.fl / (m.fl - m.fh)) < 0 <;> simp [pass, h]
  have hends : ∀ (t : FalsePosition α) (m : Locals α),
      ((pass f t m).froot < 0 →
        (pass f t m).locals.xl = (pass f t m).solver.root_ ∧ (pass f t m).locals.xh = m.xh) ∧
      (¬ (pass f t m).froot < 0 →
        (pass f t m).locals.xh = (pass f t m).solver.root_ ∧ (pass f t m).locals.xl = m.xl) := by
    intro t m
    by_cases h : f (m.xl + m.dx * m.fl / (m.fl - m.fh)) < 0 <;> simp [pass, h]
  refine ⟨hdel _ _, ?_, ?_, ?_⟩
  · intro hiff
    rw [hdel]
    by_cases hq : (pass f (pass f s l).solver (pass f s l).locals).froot < 0
    · rw [if_pos hq, ((hends s l).1 (hiff.mpr hq)).1]
    · rw [if_neg hq, ((hends s l).2 (fun hp => hq (hiff.mp hp))).1]
  · intro hp hq
    rw [hdel, if_neg hq, ((hends s l).1 hp).2]
  · intro hp hq
    rw [hdel, if_pos hq, ((hends s l).2 hp).2]

/-- C16, as amended.  At every iteration of `solve_`, the first included, `del` is the end
of the bracket that the iteration replaces minus the root estimate of the iteration:
`xl - root_` when `f(root_) < 0`, `xh - root_` otherwise.  At an iteration after the first,
`del` is the estimate of the previous iteration minus its own when both replace the same
end; when they replace different ends it is the end that the previous iteration left in
place minus its own estimate. -/
theorem del_is_replaced_end_minus_root (s : FalsePosition α) (f : α → α) (xAccuracy : α) :
    ((pass f s (limits s)).del
      = (if (pass f s (limits s)).froot < 0 then (limits s).xl else (limits s).xh)
        - (pass f s (limits s)).solver.root_) ∧
    (∀ (k : Nat) (sk : FalsePosition α) (lk : Locals α),
      loopHead s f xAccuracy k = some (sk, lk) →
      (pass f sk lk).del
        = (if (pass f sk lk).froot < 0 then lk.xl else lk.xh) - (pass f sk lk).solver.root_) ∧
    (∀ (k : Nat) (sk sk' : FalsePosition α) (lk lk' : Locals α),
      loopHead s f xAccuracy k = some (sk, lk) →
      loopHead s f xAccuracy (k + 1) = some (sk', lk') →
      (((pass f sk lk).froot < 0 ↔ (pass f sk' lk').froot < 0) →
        (pass f sk' lk').del = (pass f sk lk).solver.root_ - (pass f sk' lk').solver.root_) ∧
      ((pass f sk lk).froot < 0 → ¬ (pass f sk' lk').froot < 0 →
        (pass f sk' lk').del = lk.xh - (pass f sk' lk').solver.root_) ∧
      (¬ (pass f sk lk).froot < 0 → (pass f sk' lk').froot < 0 →
        (pass f sk' lk').del = lk.xl - (pass f sk' lk').solver.root_)) := by
  refine ⟨pass_del f s (limits s), fun k sk lk _ => pass_del f sk lk, ?_⟩
  intro k sk sk' lk lk' hk hk1
  obtain ⟨z, hz, hn⟩ := (loopHeadFrom_succ_eq_some f xAccuracy k _ _).mp hk1
  have hzk : z = (sk, lk) := by
    have : loopHeadFrom f xAccuracy k (s, limits s) = some (sk, lk) := hk
    rw [this] at hz
    exact (Option.some.inj hz).symm
  subst hzk
  obtain ⟨_, _, hy⟩ := (nextHead_eq_some f xAccuracy (sk, lk) (sk', lk')).mp hn
  simp only [Prod.mk.injEq] at hy
  obtain ⟨h1, h2⟩ := hy
  subst h1
  subst h2
  exact (del_of_two_passes f sk lk).2

end SolverTrace

section SqrtTwo

theorem limits_sqrtTwo (r : ℚ) (M e : Nat) :
    limits (sqrtTwoSolverAt r M e) = sqrtTwoLocals 0 := by
  simp [limits, sqrtTwoSolverAt, sqrtTwoLocals]

/-- One pass on `x^2 - 2` with the bracket `[x, 2]`, `0 ≤ x` and `x^2 < 2`: the estimate
is `(2x + 2)/(x + 2)`, the objective is negative there, and the low end moves to it. -/
theorem pass_sqrtTwo (r : ℚ) (M e : Nat) (x : ℚ) (hx0 : 0 ≤ x) (hx : x * x < 2) :
    pass sqrtTwoObjective (sqrtTwoSolverAt r M e) (sqrtTwoLocals x)
      = { solver := sqrtTwoSolverAt (sqrtTwoNext x) M (e + 1),
          locals := sqrtTwoLocals (sqrtTwoNext x),
          del := x - sqrtTwoNext x,
          froot := sqrtTwoNext x * sqrtTwoNext x - 2 } := by
  have h2 : x + 2 ≠ 0 := by linarith
  have h4 : x * x - 2 - 2 ≠ 0 := by linarith
  have hroot : x + (2 - x) * (x * x - 2) / (x * x - 2 - 2) = sqrtTwoNext x := by
    unfold sqrtTwoNext
    field_simp
    ring
  have hneg : sqrtTwoNext x * sqrtTwoNext x - 2 < 0 := by
    have hpos : 0 < x + 2 := by linarith
    have : sqrtTwoNext x * sqrtTwoNext x - 2 = (2 * (x * x - 2)) / ((x + 2) * (x + 2)) := by
      unfold sqrtTwoNext
      field_simp
      ring
    rw [this]
    apply div_neg_of_neg_of_pos
    · linarith
    · positivity
  simp only [pass, sqrtTwoLocals, sqrtTwoSolverAt, sqrtTwoObjective, hroot]
  rw [if_pos hneg]

theorem solveLoop_sqrtTwo_continue (xAccuracy : ℚ) (n : Nat) (r : ℚ) (M e : Nat) (x : ℚ)
    (hx0 : 0 ≤ x) (hx : x * x < 2) (hb : e ≤ M) (hacc : xAccuracy ≤ sqrtTwoNext x - x)
    (hne : sqrtTwoNext x * sqrtTwoNext x - 2 ≠ 0) :
    solveLoop sqrtTwoObjective xAccuracy (n + 1) (sqrtTwoSolverAt r M e) (sqrtTwoLocals x)
      = solveLoop sqrtTwoObjective xAccuracy n (sqrtTwoSolverAt (sqrtTwoNext x) M (e + 1))
          (sqrtTwoLocals (sqrtTwoNext x)) := by
  have hb' : (sqrtTwoSolverAt r M e).evaluationNumber_ ≤ (sqrtTwoSolverAt r M e).maxEvaluations_ :=
    hb
  have hc : converged xAccuracy
      (pass sqrtTwoObjective (sqrtTwoSolverAt r M e) (sqrtTwoLocals x)) = false := by
    rw [pass_sqrtTwo r M e x hx0 hx, Bool.eq_false_iff]
    intro hcon
    rcases (converged_iff _ _).mp hcon with hd | h0
    · simp only at hd
      have := (abs_lt.mp hd).1
      linarith
    · exact hne h0
  simp only [solveLoop]
  rw [if_pos hb', hc, pass_sqrtTwo r M e x hx0 hx]
  simp

theorem solveLoop_sqrtTwo_return (xAccuracy : ℚ) (n : Nat) (r : ℚ) (M e : Nat) (x : ℚ)
    (hx0 : 0 ≤ x) (hx : x * x < 2) (hb : e ≤ M) (hacc : |x - sqrtTwoNext x| < xAccuracy) :
    solveLoop sqrtTwoObjective xAccuracy (n + 1) (sqrtTwoSolverAt r M e) (sqrtTwoLocals x)
      = (.ok (sqrtTwoNext x), sqrtTwoSolverAt (sqrtTwoNext x) M (e + 1)) := by
  have hb' : (sqrtTwoSolverAt r M e).evaluationNumber_ ≤ (sqrtTwoSolverAt r M e).maxEvaluations_ :=
    hb
  have hc : converged xAccuracy
      (pass sqrtTwoObjective (sqrtTwoSolverAt r M e) (sqrtTwoLocals x)) = true := by
    rw [pass_sqrtTwo r M e x hx0 hx]
    exact (converged_iff _ _).mpr (Or.inl hacc)
  simp only [solveLoop]
  rw [if_pos hb', hc, pass_sqrtTwo r M e x hx0 hx]
  simp [sqrtTwoSolverAt]

/-- With a budget of one evaluation and none made, `solve_` on `x^2 - 2` over `[0, 2]`
makes two passes, with estimates `1` and `4/3`, and fails with the counter at two. -/
theorem solve_sqrtTwo_budget_one (r0 : ℚ) :
    solve_ (sqrtTwoSolverAt r0 1 0) sqrtTwoObjective (1 / 1000000)
      = (.error (maxEvaluationsMessage 1), sqrtTwoSolverAt (4 / 3) 1 2) := by
  have n0 : sqrtTwoNext 0 = 1 := by norm_num [sqrtTwoNext]
  have n1 : sqrtTwoNext 1 = 4 / 3 := by norm_num [sqrtTwoNext]
  unfold solve_
  rw [limits_sqrtTwo]
  show solveLoop sqrtTwoObjective (1 / 1000000) (1 + 1) _ _ = _
  rw [solveLoop_sqrtTwo_continue _ _ _ _ _ 0 (by norm_num) (by norm_num) (by omega)
      (by rw [n0]; norm_num) (by rw [n0]; norm_num), n0]
  show solveLoop sqrtTwoObjective (1 / 1000000) (0 + 1) _ _ = _
  rw [solveLoop_sqrtTwo_continue _ _ _ _ _ 1 (by norm_num) (by norm_num) (by omega)
      (by rw [n1]; norm_num) (by rw [n1]; norm_num), n1]
  rfl

/-- With a budget of a hundred evaluations, of which at most 91 are made on entry, `solve_`
on `x^2 - 2` over `[0, 2]` with accuracy `10^-6` returns `4756/3363` at its tenth pass. -/
theorem solve_sqrtTwo_budget_hundred (r0 : ℚ) (e0 : Nat) (h : e0 ≤ 91) :
    solve_ (sqrtTwoSolverAt r0 100 e0) sqrtTwoObjective (1 / 1000000)
      = (.ok (4756 / 3363), sqrtTwoSolverAt (4756 / 3363) 100 (e0 + 10)) := by
  have n0 : sqrtTwoNext 0 = 1 := by norm_num [sqrtTwoNext]
  have n1 : sqrtTwoNext 1 = 4/3 := by norm_num [sqrtTwoNext]
  have n2 : sqrtTwoNext (4/3) = 7/5 := by norm_num [sqrtTwoNext]
  have n3 : sqrtTwoNext (7/5) = 24/17 := by norm_num [sqrtTwoNext]
  have n4 : sqrtTwoNext (24/17) = 41/29 := by norm_num [sqrtTwoNext]
  have n5 : sqrtTwoNext (41/29) = 140/99 := by norm_num [sqrtTwoNext]
  have n6 : sqrtTwoNext (140/99) = 239/169 := by norm_num [sqrtTwoNext]
  have n7 : sqrtTwoNext (239/169) = 816/577 := by norm_num [sqrtTwoNext]
  have n8 : sqrtTwoNext (816/577) = 1393/985 := by norm_num [sqrtTwoNext]
  have n9 : sqrtTwoNext (1393/985) = 4756/3363 := by norm_num [sqrtTwoNext]
  obtain ⟨m, hm⟩ : ∃ m, 100 + 1 - e0 = m + 10 := ⟨91 - e0, by omega⟩
  unfold solve_
  rw [limits_sqrtTwo]
  show solveLoop sqrtTwoObjective (1 / 1000000) (100 + 1 - e0) _ _ = _
  rw [hm]
  rw [show m + 10 = (m + 9) + 1 from rfl,
    solveLoop_sqrtTwo_continue _ _ _ _ _ 0 (by norm_num) (by norm_num) (by omega)
      (by rw [n0]; norm_num) (by rw [n0]; norm_num), n0]
  rw [show m + 9 = (m + 8) + 1 from rfl,
    solveLoop_sqrtTwo_continue _ _ _ _ _ 1 (by norm_num) (by norm_num) (by omega)
      (by rw [n1]; norm_num) (by rw [n1]; norm_num), n1]
  rw [show m + 8 = (m + 7) + 1 from rfl,
    solveLoop_sqrtTwo_continue _ _ _ _ _ (4/3) (by norm_num) (by norm_num) (by omega)
      (by rw [n2]; norm_num) (by rw [n2]; norm_num), n2]
  rw [show m + 7 = (m + 6) + 1 from rfl,
    solveLoop_sqrtTwo_continue _ _ _ _ _ (7/5) (by norm_num) (by norm_num) (by omega)
      (by rw [n3]; norm_num) (by rw [n3]; norm_num), n3]
  rw [show m + 6 = (m + 5) + 1 from rfl,
    solveLoop_sqrtTwo_continue _ _ _ _ _ (24/17) (by norm_num) (by norm_num) (by omega)
      (by rw [n4]; norm_num) (by rw [n4]; norm_num), n4]
  rw [show m + 5 = (m + 4) + 1 from rfl,
    solveLoop_sqrtTwo_continue _ _ _ _ _ (41/29) (by norm_num) (by norm_num) (by omega)
      (by rw [n5]; norm_num) (by rw [n5]; norm_num), n5]
  rw [show m + 4 = (m + 3) + 1 from rfl,
    solveLoop_sqrtTwo_continue _ _ _ _ _ (140/99) (by norm_num) (by norm_num) (by omega)
      (by rw [n6]; norm_num) (by rw [n6]; norm_num), n6]
  rw [show m + 3 = (m + 2) + 1 from rfl,
    solveLoop_sqrtTwo_continue _ _ _ _ _ (239/169) (by norm_num) (by norm_num) (by omega)
      (by rw [n7]; norm_num) (by rw [n7]; norm_num), n7]
  rw [show m + 2 = (m + 1) + 1 from rfl,
    solveLoop_sqrtTwo_continue _ _ _ _ _ (816/577) (by norm_num) (by norm_num) (by omega)
      (by rw [n8]; norm_num) (by rw [n8]; norm_num), n8]
  rw [show m + 1 = m + 1 from rfl,
    solveLoop_sqrtTwo_return _ _ _ _ _ (1393 / 985) (by norm_num) (by norm_num) (by omega)
      (by rw [n9]; norm_num [abs_lt]), n9]

theorem sqrtTwoSolver_eq (M : Nat) : sqrtTwoSolver M = sqrtTwoSolverAt 0 M 0 := rfl

/-- On `x^2 - 2` the loop test is reached a second time with the bracket `[1, 2]`. -/
theorem loopHead_sqrtTwo_one (M : Nat) :
    loopHead (sqrtTwoSolver (M + 1)) sqrtTwoObjective (1 / 1000000) 1
      = some (sqrtTwoSolverAt 1 (M + 1) 1, sqrtTwoLocals 1) := by
  have n0 : sqrtTwoNext 0 = 1 := by norm_num [sqrtTwoNext]
  have hp := pass_sqrtTwo 0 (M + 1) 0 0 (by norm_num) (by norm_num)
  rw [n0] at hp
  unfold loopHead
  rw [loopHeadFrom_succ_eq_some]
  refine ⟨_, rfl, ?_⟩
  rw [nextHead_eq_some]
  refine ⟨?_, ?_, ?_⟩
  · show 0 ≤ M + 1
    omega
  · show converged _ (pass sqrtTwoObjective (sqrtTwoSolver (M + 1))
      (limits (sqrtTwoSolver (M + 1)))) = false
    rw [sqrtTwoSolver_eq, limits_sqrtTwo, hp]
    simp [converged]
    norm_num
  · show _ = ((pass sqrtTwoObjective (sqrtTwoSolver (M + 1))
      (limits (sqrtTwoSolver (M + 1)))).solver, _)
    rw [sqrtTwoSolver_eq, limits_sqrtTwo, hp]

/-- C11 on `x^2 - 2` over `[0, 2]`: the values at the ends are `-2` and `2`, and every time
the loop test is reached `fl < 0 < fh`; the second time the values are `-1` and `2`. -/
theorem bracket_signs_invariant_witness :
    (sqrtTwoSolver 5).fxMin_ * (sqrtTwoSolver 5).fxMax_ < 0 ∧
    loopHead (sqrtTwoSolver 5) sqrtTwoObjective (1 / 1000000) 1
      = some (sqrtTwoSolverAt 1 5 1, sqrtTwoLocals 1) ∧
    ((sqrtTwoLocals 1).fl < 0 ∧ 0 < (sqrtTwoLocals 1).fh) :=
  ⟨by norm_num [sqrtTwoSolver], loopHead_sqrtTwo_one 4,
    (bracket_signs_invariant (sqrtTwoSolver 5) sqrtTwoObjective (1 / 1000000)
      (by norm_num [sqrtTwoSolver])).2.2 1 _ _ (loopHead_sqrtTwo_one 4)⟩

/-- C12 on `x^2 - 2` over `[0, 2]` with a budget of 100: the value returned, `4756/3363`,
is not a zero of the objective, so the last pass had `|del|` below the accuracy. -/
theorem solve_returns_at_first_converged_witness :
    solve_ (sqrtTwoSolver 100) sqrtTwoObjective (1 / 1000000)
      = (.ok (4756 / 3363), sqrtTwoSolverAt (4756 / 3363) 100 10) ∧
    sqrtTwoObjective (4756 / 3363) ≠ 0 ∧
    (sqrtTwoObjective (4756 / 3363) = 0 ∨
      ∃ k sk lk, loopHead (sqrtTwoSolver 100) sqrtTwoObjective (1 / 1000000) k
          = some (sk, lk) ∧
        (4756 / 3363 : ℚ) = (pass sqrtTwoObjective sk lk).solver.root_ ∧
        |(pass sqrtTwoObjective sk lk).del| < 1 / 1000000) :=
  ⟨solve_sqrtTwo_budget_hundred 0 0 (by omega), by norm_num [sqrtTwoObjective],
    (solve_returns_at_first_converged (sqrtTwoSolver 100) sqrtTwoObjective
      (1 / 1000000)).2.2 _ _ (solve_sqrtTwo_budget_hundred 0 0 (by omega))⟩

/-- C14.  For `f(x) = x^2 - 2` with the bracket `xMin_ = 0`, `xMax_ = 2`, `fxMin_ = -2`,
`fxMax_ = 2`, accuracy `10^-6` and a budget of 100 evaluations, of which at most 91 are
counted on entry, `solve_` returns a value `r` with `|r - sqrt 2| < 10^-6`. -/
theorem solve_sqrtTwo_within_accuracy (r0 : ℚ) (e0 : Nat) (h : e0 ≤ 91) :
    ∃ (r : ℚ) (s' : FalsePosition ℚ),
      solve_ (sqrtTwoSolverAt r0 100 e0) sqrtTwoObjective (1 / 1000000) = (.ok r, s') ∧
      |(r : ℝ) - Real.sqrt 2| < 1 / 1000000 := by
  refine ⟨4756 / 3363, _, solve_sqrtTwo_budget_hundred r0 e0 h, ?_⟩
  rw [abs_lt]
  constructor
  · have : Real.sqrt 2 < ((4756 / 3363 : ℚ) : ℝ) + 1 / 1000000 := by
      rw [Real.sqrt_lt' (by norm_num)]
      norm_num
    linarith
  · have : ((4756 / 3363 : ℚ) : ℝ) - 1 / 1000000 < Real.sqrt 2 := by
      rw [Real.lt_sqrt (by norm_num)]
      norm_num
    linarith

/-- C14 with no evaluation counted on entry. -/
theorem solve_sqrtTwo_within_accuracy_witness :
    (0 : Nat) ≤ 91 ∧
    ∃ (r : ℚ) (s' : FalsePosition ℚ),
      solve_ (sqrtTwoSolverAt 0 100 0) sqrtTwoObjective (1 / 1000000) = (.ok r, s') ∧
      |(r : ℝ) - Real.sqrt 2| < 1 / 1000000 :=
  ⟨by decide, solve_sqrtTwo_within_accuracy 0 0 (by decide)⟩

/-- C15 as stated fails on `x^2 - 2` over `[0, 2]` with a budget of one evaluation: the call
is entered with the counter at `0`, within the budget, and ends with the counter at `2`. -/
theorem evaluationNumber_exceeds_max :
    (sqrtTwoSolver 1).evaluationNumber_ ≤ (sqrtTwoSolver 1).maxEvaluations_ ∧
    (solve_ (sqrtTwoSolver 1) sqrtTwoObjective (1 / 1000000)).2.evaluationNumber_ = 2 ∧
    ¬ (solve_ (sqrtTwoSolver 1) sqrtTwoObjective (1 / 1000000)).2.evaluationNumber_
        ≤ (sqrtTwoSolver 1).maxEvaluations_ := by
  have h : solve_ (sqrtTwoSolver 1) sqrtTwoObjective (1 / 1000000)
      = (.error (maxEvaluationsMessage 1), sqrtTwoSolverAt (4 / 3) 1 2) :=
    solve_sqrtTwo_budget_one 0
  rw [h]
  exact ⟨by decide, rfl, by decide⟩

/-- C15 as amended, on the same call: the counter ends at most at `1 + 1`. -/
theorem evaluationNumber_le_succ_max_witness :
    (sqrtTwoSolver 1).evaluationNumber_ ≤ (sqrtTwoSolver 1).maxEvaluations_ ∧
    (solve_ (sqrtTwoSolver 1) sqrtTwoObjective (1 / 1000000)).2.evaluationNumber_
      ≤ (sqrtTwoSolver 1).maxEvaluations_ + 1 :=
  ⟨by decide, (evaluationNumber_le_succ_max (sqrtTwoSolver 1) sqrtTwoObjective (1 / 1000000)
    (by decide)).2.1⟩

end SqrtTwo

section Cubic

/-- The first pass on the cubic objective over `[0, 2]`: the estimate is `1`, where the
objective is `-1`, and the low end moves to it. -/
theorem pass_cubic_first (M : Nat) :
    pass cubicObjective (sqrtTwoSolver M) (limits (sqrtTwoSolver M))
      = { solver := sqrtTwoSolverAt 1 M 1,
          locals := { xl := 1, xh := 2, fl := -1, fh := 2, dx := 1 },
          del := -1, froot := -1 } := by
  simp [pass, limits, sqrtTwoSolver, sqrtTwoSolverAt, cubicObjective]
  norm_num

/-- The second pass on the cubic objective: the estimate is `4/3`, where the objective is
`2/27`, so the high end `2` is the one replaced and `del` is `2 - 4/3`. -/
theorem pass_cubic_second (M : Nat) :
    pass cubicObjective (sqrtTwoSolverAt 1 M 1)
        { xl := 1, xh := 2, fl := -1, fh := 2, dx := 1 }
      = { solver := sqrtTwoSolverAt (4 / 3) M 2,
          locals := { xl := 1, xh := 4 / 3, fl := -1, fh := 2 / 27, dx := 1 / 3 },
          del := 2 / 3, froot := 2 / 27 } := by
  simp [pass, sqrtTwoSolverAt, cubicObjective]
  norm_num

/-- C16 as stated fails on the cubic objective over `[0, 2]`: the second pass of `solve_`
begins at the loop test reached after the first, its `del` is `2/3`, while the estimate of
the first pass minus its own is `1 - 4/3`; the two differ in absolute value as well. -/
theorem del_not_previous_root_minus_root :
    loopHead (sqrtTwoSolver 5) cubicObjective (1 / 1000000) 1
      = some ((pass cubicObjective (sqrtTwoSolver 5) (limits (sqrtTwoSolver 5))).solver,
              (pass cubicObjective (sqrtTwoSolver 5) (limits (sqrtTwoSolver 5))).locals) ∧
    (pass cubicObjective (sqrtTwoSolver 5) (limits (sqrtTwoSolver 5))).solver.root_ = 1 ∧
    (pass cubicObjective
        (pass cubicObjective (sqrtTwoSolver 5) (limits (sqrtTwoSolver 5))).solver
        (pass cubicObjective (sqrtTwoSolver 5) (limits (sqrtTwoSolver 5))).locals).solver.root_
      = 4 / 3 ∧
    (pass cubicObjective
        (pass cubicObjective (sqrtTwoSolver 5) (limits (sqrtTwoSolver 5))).solver
        (pass cubicObjective (sqrtTwoSolver 5) (limits (sqrtTwoSolver 5))).locals).del
      = 2 / 3 ∧
    (2 / 3 : ℚ) ≠ 1 - 4 / 3 ∧ |(2 / 3 : ℚ)| ≠ |(1 : ℚ) - 4 / 3| := by
  refine ⟨?_, ?_, ?_, ?_, by norm_num, ?_⟩
  · unfold loopHead
    rw [loopHeadFrom_succ_eq_some]
    refine ⟨_, rfl, ?_⟩
    rw [nextHead_eq_some]
    refine ⟨by decide, ?_, rfl⟩
    show converged _ (pass cubicObjective (sqrtTwoSolver 5) (limits (sqrtTwoSolver 5))) = false
    rw [pass_cubic_first]
    simp [converged]
    norm_num
  · rw [pass_cubic_first]; rfl
  · rw [pass_cubic_first, pass_cubic_second]; rfl
  · rw [pass_cubic_first, pass_cubic_second]
  · rw [abs_of_pos (by norm_num), abs_of_neg (by norm_num)]
    norm_num

/-- On the cubic objective the loop test is reached a second time after the first pass. -/
theorem loopHead_cubic_one :
    loopHead (sqrtTwoSolver 5) cubicObjective (1 / 1000000) 1
      = some (sqrtTwoSolverAt 1 5 1, { xl := 1, xh := 2, fl := -1, fh := 2, dx := 1 }) := by
  unfold loopHead
  rw [loopHeadFrom_succ_eq_some]
  refine ⟨_, rfl, ?_⟩
  rw [nextHead_eq_some]
  refine ⟨by decide, ?_, ?_⟩
  · show converged _ (pass cubicObjective (sqrtTwoSolver 5) (limits (sqrtTwoSolver 5))) = false
    rw [pass_cubic_first]
    simp [converged]
    norm_num
  · show _ = ((pass cubicObjective (sqrtTwoSolver 5) (limits (sqrtTwoSolver 5))).solver,
      (pass cubicObjective (sqrtTwoSolver 5) (limits (sqrtTwoSolver 5))).locals)
    rw [pass_cubic_first]

/-- C16 as amended, on the cubic objective over `[0, 2]`: in the first iteration `del` is
the low end `0` minus the estimate `1`; the first iteration replaces the low end and the
second the high end, so in the second `del` is the high end given on entry, `2`, minus the
estimate `4/3`. -/
theorem del_is_replaced_end_minus_root_witness :
    (pass cubicObjective (sqrtTwoSolver 5) (limits (sqrtTwoSolver 5))).del
      = (if (pass cubicObjective (sqrtTwoSolver 5) (limits (sqrtTwoSolver 5))).froot < 0
          then (limits (sqrtTwoSolver 5)).xl else (limits (sqrtTwoSolver 5)).xh)
        - (pass cubicObjective (sqrtTwoSolver 5) (limits (sqrtTwoSolver 5))).solver.root_ ∧
    (pass cubicObjective (sqrtTwoSolver 5) (limits (sqrtTwoSolver 5))).del = 0 - 1 ∧
    (pass cubicObjective (sqrtTwoSolverAt 1 5 1)
        { xl := 1, xh := 2, fl := -1, fh := 2, dx := 1 }).del
      = (limits (sqrtTwoSolver 5)).xh
        - (pass cubicObjective (sqrtTwoSolverAt 1 5 1)
            { xl := 1, xh := 2, fl := -1, fh := 2, dx := 1 }).solver.root_ ∧
    (limits (sqrtTwoSolver 5)).xh = 2 ∧
    (pass cubicObjective (sqrtTwoSolverAt 1 5 1)
        { xl := 1, xh := 2, fl := -1, fh := 2, dx := 1 }).solver.root_ = 4 / 3 := by
  have h := del_is_replaced_end_minus_root (sqrtTwoSolver 5) cubicObjective (1 / 1000000)
  have h1 : (pass cubicObjective (sqrtTwoSolver 5) (limits (sqrtTwoSolver 5))).froot < 0 := by
    rw [pass_cubic_first]; norm_num
  have h2 : ¬ (pass cubicObjective (sqrtTwoSolverAt 1 5 1)
      { xl := 1, xh := 2, fl := -1, fh := 2, dx := 1 }).froot < 0 := by
    rw [pass_cubic_second]; norm_num
  refine ⟨h.1, ?_, (h.2.2 0 _ _ _ _ rfl loopHead_cubic_one).2.1 h1 h2, ?_, ?_⟩
  · rw [pass_cubic_first]; norm_num
  · simp [limits, sqrtTwoSolver]
  · rw [pass_cubic_second]
    rfl

end Cubic

end FalsePosition

end Solvers1D

end QuantLib

/-! ## `Model::calibrate` -/

namespace QuantLib

namespace ShortRateModels

set_option linter.unusedSectionVars false

section Calibrate

variable {α : Type} [Inhabited α]

theorem setParams_arities (m : Model α) (v : List α) :
    arities (m.setParams v).2.arguments_ = arities m.arguments_ := by
  rcases Nat.lt_trichotomy v.length m.totalArity with h | h | h
  · exact (setParams_small m v h).2.1
  · exact (setParams_ok m v h).2.1
  · exact (setParams_big m v h).2.1

theorem setParams_totalArity (m : Model α) (v : List α) :
    (m.setParams v).2.totalArity = m.totalArity :=
  totalArity_eq_of_arities _ _ (setParams_arities m v)

variable [Zero α] [Add α] [Mul α]

theorem value_eq_of_length (QL_SQRT : α → α) (instruments : List (CalibrationHelper α))
    (m : Model α) (x : List α) (hx : x.length = m.totalArity) :
    ∃ y, CalibrationFunction.value QL_SQRT instruments m x = (.ok y, (m.setParams x).2) := by
  refine ⟨_, Prod.ext (value_ok QL_SQRT instruments m x hx) ?_⟩
  exact value_model QL_SQRT instruments m x

/-- A minimization run leaves the total arity of the model as it was. -/
theorem run_totalArity (QL_SQRT : α → α) (instruments : List (CalibrationHelper α)) :
    ∀ (t : Minimization α) (m : Model α),
      (t.run QL_SQRT instruments m).2.totalArity = m.totalArity := by
  intro t
  induction t with
  | minimum x => intro m; rfl
  | failure e => intro m; rfl
  | evaluate x next ih =>
    intro m
    have hm := value_model QL_SQRT instruments m x
    simp only [Minimization.run]
    rcases hv : CalibrationFunction.value QL_SQRT instruments m x with ⟨o, m'⟩
    rw [hv] at hm
    simp only at hm
    cases o with
    | ok y =>
      simp only
      rw [ih y m', hm, setParams_totalArity]
    | error e =>
      simp only
      rw [hm, setParams_totalArity]

/-- When every vector passed to the cost function has the total arity of the model, a
minimization run leaves the model with the last vector passed as its parameters, or with
the parameters it had if none was passed. -/
theorem run_params (QL_SQRT : α → α) (instruments : List (CalibrationHelper α)) :
    ∀ (t : Minimization α) (m : Model α),
      (∀ x ∈ t.passed QL_SQRT instruments m, x.length = m.totalArity) →
      (t.run QL_SQRT instruments m).2.params
        = ((t.passed QL_SQRT instruments m).getLast?).getD m.params := by
  intro t
  induction t with
  | minimum x => intro m _; rfl
  | failure e => intro m _; rfl
  | evaluate x next ih =>
    intro m hall
    have hx : x.length = m.totalArity := by
      apply hall
      simp only [Minimization.passed]
      split <;> simp
    obtain ⟨y, hy⟩ := value_eq_of_length QL_SQRT instruments m x hx
    have hp : (m.setParams x).2.params = x := params_after_setParams m x hx
    have hrest : ∀ z ∈ (next y).passed QL_SQRT instruments (m.setParams x).2,
        z.length = (m.setParams x).2.totalArity := by
      intro z hz
      rw [setParams_totalArity]
      apply hall
      simp only [Minimization.passed, hy]
      exact List.mem_cons_of_mem _ hz
    have := ih y (m.setParams x).2 hrest
    simp only [Minimization.run, Minimization.passed, hy]
    rw [this, hp]
    cases (next y).passed QL_SQRT instruments (m.setParams x).2 with
    | nil => rfl
    | cons a l =>
      rw [List.getLast?_cons_cons, List.getLast?_eq_getLast _ (List.cons_ne_nil a l)]
      rfl

theorem calibrate_eq (QL_SQRT : α → α) (constraint_ : Constraint α) (m : Model α)
    (instruments : List (CalibrationHelper α)) (method : Method α)
    (additionalConstraint : Constraint α) :
    m.calibrate QL_SQRT constraint_ instruments method additionalConstraint
      = (match (method.policy m.params true
            (m.calibrateProblem constraint_ instruments method
              additionalConstraint).constraint.test).run QL_SQRT instruments m with
        | (.ok result, m') => m'.setParams result
        | (.error e, m') => (.error e, m')) := rfl

theorem calibrateProblem_test (constraint_ : Constraint α) (m : Model α)
    (instruments : List (CalibrationHelper α)) (method : Method α)
    (additionalConstraint : Constraint α) :
    (m.calibrateProblem constraint_ instruments method additionalConstraint).constraint.test
      = fun v => constraint_.test v
          && (additionalConstraint.isNull || additionalConstraint.test v) := by
  funext v
  cases hn : additionalConstraint.isNull <;>
    simp [Model.calibrateProblem, hn, CompositeConstraint]

/-- C17.  The constraint that `calibrate` hands to the optimization problem it minimizes
accepts a vector iff the constraint of the model accepts it and, when the additional
constraint is not null, the additional constraint accepts it too: the minimization that
`calibrate` runs is the policy of the method on that test.  When the additional constraint
is null the constraint handed over is the one of the model. -/
theorem calibrate_constraint (QL_SQRT : α → α) (constraint_ : Constraint α) (m : Model α)
    (instruments : List (CalibrationHelper α)) (method : Method α)
    (additionalConstraint : Constraint α) :
    (m.calibrate QL_SQRT constraint_ instruments method additionalConstraint
      = (match (method.policy m.params true
            (fun v => constraint_.test v
              && (additionalConstraint.isNull || additionalConstraint.test v))).run
            QL_SQRT instruments m with
        | (.ok result, m') => m'.setParams result
        | (.error e, m') => (.error e, m'))) ∧
    (∀ v : List α,
      (constraint_.test v && (additionalConstraint.isNull || additionalConstraint.test v))
          = true ↔
        (constraint_.test v = true ∧
          (additionalConstraint.isNull = false → additionalConstraint.test v = true))) ∧
    (additionalConstraint.isNull = true →
      m.calibrate QL_SQRT constraint_ instruments method additionalConstraint
        = (match (method.policy m.params true constraint_.test).run QL_SQRT instruments m with
          | (.ok result, m') => m'.setParams result
          | (.error e, m') => (.error e, m')) ∧
      (m.calibrateProblem constraint_ instruments method additionalConstraint).constraint
        = constraint_) := by
  refine ⟨?_, fun v => ?_, fun hn => ⟨?_, ?_⟩⟩
  · rw [calibrate_eq, calibrateProblem_test]
  · cases hn : additionalConstraint.isNull <;> simp [hn]
  · rw [calibrate_eq]
    have : (m.calibrateProblem constraint_ instruments method
        additionalConstraint).constraint = constraint_ := by
      simp [Model.calibrateProblem, hn]
    rw [this]
  · simp [Model.calibrateProblem, hn]

/-- C18.  Whenever the optimizer run by `calibrate` reports a minimum of the total arity
of the model, `calibrate` returns normally and `params()` of the model is that minimum,
whatever vectors the optimizer passed to the cost function while minimizing. -/
theorem calibrate_commits_minimum (QL_SQRT : α → α) (constraint_ : Constraint α)
    (m : Model α) (instruments : List (CalibrationHelper α)) (method : Method α)
    (additionalConstraint : Constraint α) (result : List α) (m' : Model α)
    (hmin : (m.calibrateProblem constraint_ instruments method additionalConstraint).minimize
      QL_SQRT m = (.ok result, m'))
    (hlen : result.length = m.totalArity) :
    (m.calibrate QL_SQRT constraint_ instruments method additionalConstraint).1 = .ok () ∧
    (m.calibrate QL_SQRT constraint_ instruments method additionalConstraint).2.params
      = result := by
  have hta : m'.totalArity = m.totalArity := by
    have := run_totalArity QL_SQRT instruments
      (m.calibrateProblem constraint_ instruments method additionalConstraint).minimization m
    have hm : (m.calibrateProblem constraint_ instruments method
        additionalConstraint).minimization.run QL_SQRT instruments m = (.ok result, m') := hmin
    rw [hm] at this
    exact this
  have hc : m.calibrate QL_SQRT constraint_ instruments method additionalConstraint
      = m'.setParams result := by
    simp only [Model.calibrate, hmin]
  rw [hc]
  have hlen' : result.length = m'.totalArity := by omega
  exact ⟨(setParams_ok m' result hlen').1, params_after_setParams m' result hlen'⟩

/-- C19.  `calibrate` passes to `method.setInitialValue` the flattened parameters of the
model as they are when `calibrate` is called: the minimization that `calibrate` runs is the
policy of the method started from the scalars of the groups on entry, in group order and
index order, whatever initial value the method held before and whatever the cost function
does to the model afterwards. -/
theorem calibrate_initial_value (QL_SQRT : α → α) (constraint_ : Constraint α)
    (m : Model α) (instruments : List (CalibrationHelper α)) (method : Method α)
    (additionalConstraint : Constraint α) :
    (m.calibrate QL_SQRT constraint_ instruments method additionalConstraint
      = (match (method.policy ((m.arguments_.map Parameter.params).flatten) true
            (fun v => constraint_.test v
              && (additionalConstraint.isNull || additionalConstraint.test v))).run
            QL_SQRT instruments m with
        | (.ok result, m') => m'.setParams result
        | (.error e, m') => (.error e, m'))) ∧
    (∀ w : List α,
      m.calibrate QL_SQRT constraint_ instruments { method with initialValue_ := w }
          additionalConstraint
        = m.calibrate QL_SQRT constraint_ instruments method additionalConstraint) ∧
    (m.calibrateProblem constraint_ instruments method additionalConstraint).method.initialValue_
      = (m.arguments_.map Parameter.params).flatten := by
  have hp : m.params = (m.arguments_.map Parameter.params).flatten := by
    rw [params_eq_flat, flat_eq_flatten]
  refine ⟨?_, fun w => rfl, ?_⟩
  · rw [calibrate_eq, calibrateProblem_test, hp]
  · rw [← hp]; rfl

/-- C20, as amended.  If the optimizer run by `calibrate` fails before it reports a
minimum, `calibrate` fails with the same error and leaves the model as the optimizer left
it; if moreover every vector passed to the cost function had the total arity of the model,
`params()` of the model is the last vector passed to the cost function, or the parameters
on entry if the cost function was never evaluated. -/
theorem calibrate_failure_state (QL_SQRT : α → α) (constraint_ : Constraint α)
    (m : Model α) (instruments : List (CalibrationHelper α)) (method : Method α)
    (additionalConstraint : Constraint α) (e : String) (m' : Model α)
    (hmin : (m.calibrateProblem constraint_ instruments method additionalConstraint).minimize
      QL_SQRT m = (.error e, m')) :
    m.calibrate QL_SQRT constraint_ instruments method additionalConstraint = (.error e, m') ∧
    ((∀ x ∈ (m.calibrateProblem constraint_ instruments method
          additionalConstraint).minimization.passed QL_SQRT instruments m,
        x.length = m.totalArity) →
      m'.params = (((m.calibrateProblem constraint_ instruments method
          additionalConstraint).minimization.passed QL_SQRT instruments m).getLast?).getD
        m.params) := by
  refine ⟨?_, fun hall => ?_⟩
  · simp only [Model.calibrate, hmin]
  · have := run_params QL_SQRT instruments
      (m.calibrateProblem constraint_ instruments method additionalConstraint).minimization m
      hall
    have hm : (m.calibrateProblem constraint_ instruments method
        additionalConstraint).minimization.run QL_SQRT instruments m = (.error e, m') := hmin
    rw [hm] at this
    exact this

end Calibrate

section CalibrateInstances

open CalibrationFunction

/-- C17 on the example model, with "non-negative" as the constraint of the model and a
method that reports `[1, 1, 1]` if the constraint it is given accepts `[1, 20, 3]` and
`[2, 2, 2]` if not: with the additional constraint "at most ten" `calibrate` ends with
`[2, 2, 2]`, with the null constraint it ends with `[1, 1, 1]`. -/
theorem calibrate_constraint_witness :
    (exampleModel.calibrate intSqrt nonNegative [distanceHelper 0 0] askConstraint
      atMostTen).2.params = [2, 2, 2] ∧
    nullConstraint.isNull = true ∧
    (exampleModel.calibrate intSqrt nonNegative [distanceHelper 0 0] askConstraint
      nullConstraint).2.params = [1, 1, 1] := by
  have h1 := (calibrate_constraint intSqrt nonNegative exampleModel [distanceHelper 0 0]
    askConstraint atMostTen).1
  have h2 := ((calibrate_constraint intSqrt nonNegative exampleModel [distanceHelper 0 0]
    askConstraint nullConstraint).2.2 rfl).1
  refine ⟨?_, rfl, ?_⟩
  · rw [h1]; decide
  · rw [h2]; decide

/-- C18 on the example model: the optimizer passes `[1, 2, 3]` and `[4, 5, 6]` to the cost
function and reports `[7, 8, 9]`; the model ends with `[7, 8, 9]`. -/
theorem calibrate_commits_minimum_witness :
    ([7, 8, 9] : List Int).length = exampleModel.totalArity ∧
    (exampleModel.calibrate intSqrt acceptAll [distanceHelper 0 0] probeTwice
      nullConstraint).1 = .ok () ∧
    (exampleModel.calibrate intSqrt acceptAll [distanceHelper 0 0] probeTwice
      nullConstraint).2.params = [7, 8, 9] :=
  ⟨by decide,
    calibrate_commits_minimum intSqrt acceptAll exampleModel [distanceHelper 0 0] probeTwice
      nullConstraint [7, 8, 9] _ rfl (by decide)⟩

/-- C19 on the example model, with a method that held `[5, 5, 5]` as initial value,
evaluates the cost function at `[1, 2, 3]` and reports its initial value, ten added to
every element: `calibrate` ends with `[10, 10, 10]`, so the initial value was the
parameters on entry, `[0, 0, 0]`. -/
theorem calibrate_initial_value_witness :
    exampleModel.params = [0, 0, 0] ∧
    (exampleModel.calibrate intSqrt acceptAll [distanceHelper 0 0] probeThenShifted
      nullConstraint).1 = .ok () ∧
    (exampleModel.calibrate intSqrt acceptAll [distanceHelper 0 0] probeThenShifted
      nullConstraint).2.params = [10, 10, 10] := by
  have h := (calibrate_initial_value intSqrt acceptAll exampleModel [distanceHelper 0 0]
    probeThenShifted nullConstraint).1
  refine ⟨by decide, ?_, ?_⟩
  · rw [h]; rfl
  · rw [h]; decide

/-- C20 as stated fails on the example model: the optimizer passes `[1, 2, 3]` to the cost
function, with success, and then the one-element vector `[5]`, on which `setParams`
throws; `calibrate` fails, and the parameters it leaves, `[5, 2, 3]`, are neither the last
vector passed with success nor the parameters on entry. -/
theorem calibrate_failure_partial_update :
    (exampleModel.calibrate intSqrt acceptAll [distanceHelper 0 0] probeThenShort
      nullConstraint).1 = .error "Parameter array too small" ∧
    (value intSqrt [distanceHelper 0 0] exampleModel [1, 2, 3]).1 = .ok 1 ∧
    (value intSqrt [distanceHelper 0 0]
      (value intSqrt [distanceHelper 0 0] exampleModel [1, 2, 3]).2 [5]).1
      = .error "Parameter array too small" ∧
    exampleModel.params = [0, 0, 0] ∧
    (exampleModel.calibrate intSqrt acceptAll [distanceHelper 0 0] probeThenShort
      nullConstraint).2.params = [5, 2, 3] ∧
    (exampleModel.calibrate intSqrt acceptAll [distanceHelper 0 0] probeThenShort
      nullConstraint).2.params ≠ [1, 2, 3] ∧
    (exampleModel.calibrate intSqrt acceptAll [distanceHelper 0 0] probeThenShort
      nullConstraint).2.params ≠ exampleModel.params := by
  refine ⟨rfl, rfl, rfl, by decide, by decide, by decide, by decide⟩

/-- C20 as amended, on the example model: the optimizer passes `[1, 2, 3]` to the cost
function and then fails; `calibrate` fails with the error of the optimizer and the model
is left with `[1, 2, 3]`. -/
theorem calibrate_failure_state_witness :
    (exampleModel.calibrate intSqrt acceptAll [distanceHelper 0 0] probeThenFail
      nullConstraint).1 = .error "no progress" ∧
    (exampleModel.calibrate intSqrt acceptAll [distanceHelper 0 0] probeThenFail
      nullConstraint).2.params = [1, 2, 3] := by
  have h := calibrate_failure_state intSqrt acceptAll exampleModel [distanceHelper 0 0]
    probeThenFail nullConstraint "no progress" _ rfl
  refine ⟨by rw [h.1], ?_⟩
  rw [h.1]
  exact h.2 (by decide)

end CalibrateInstances

end ShortRateModels

end QuantLib

/-! ## `FalsePosition::solve_`: symmetry, bracket, denominator, termination -/

namespace QuantLib

namespace Solvers1D

namespace FalsePosition

set_option linter.unusedSectionVars false

section SolverMore

variable {α : Type} [LinearOrderedField α]

theorem limits_swapEnds (s : FalsePosition α) (h : s.fxMin_ * s.fxMax_ < 0) :
    limits (swapEnds s) = limits s := by
  by_cases hm : s.fxMin_ < 0
  · have hx : ¬ s.fxMax_ < 0 := by
      intro hx
      exact absurd h (not_lt.mpr (le_of_lt (mul_pos_of_neg_of_neg hm hx)))
    simp [limits, swapEnds, hm, hx]
  · have hx : s.fxMax_ < 0 := by
      by_contra hx
      exact absurd h (not_lt.mpr (mul_nonneg (not_lt.mp hm) (not_lt.mp hx)))
    simp [limits, swapEnds, hm, hx]

theorem pass_swapEnds (f : α → α) (s : FalsePosition α) (l : Locals α) :
    pass f (swapEnds s) l
      = { pass f s l with solver := swapEnds (pass f s l).solver } := by
  by_cases h : f (l.xl + l.dx * l.fl / (l.fl - l.fh)) < 0 <;> simp [pass, h, swapEnds]

theorem converged_swapEnds (f : α → α) (xAccuracy : α) (s : FalsePosition α) (l : Locals α) :
    converged xAccuracy (pass f (swapEnds s) l) = converged xAccuracy (pass f s l) := by
  rw [pass_swapEnds]
  rfl

/-- The loop on the solver with the ends exchanged does what it does on the solver itself,
and leaves the solver it would have left, with the ends exchanged. -/
theorem solveLoop_swapEnds (f : α → α) (xAccuracy : α) :
    ∀ (n : Nat) (s : FalsePosition α) (l : Locals α),
      solveLoop f xAccuracy n (swapEnds s) l
        = ((solveLoop f xAccuracy n s l).1, swapEnds (solveLoop f xAccuracy n s l).2) := by
  intro n
  induction n with
  | zero => intro s l; rfl
  | succ n ih =>
    intro s l
    simp only [solveLoop]
    have hb : (swapEnds s).evaluationNumber_ ≤ (swapEnds s).maxEvaluations_
        ↔ s.evaluationNumber_ ≤ s.maxEvaluations_ := Iff.rfl
    by_cases hle : s.evaluationNumber_ ≤ s.maxEvaluations_
    · rw [if_pos (hb.mpr hle), if_pos hle, converged_swapEnds]
      by_cases hc : converged xAccuracy (pass f s l) = true
      · rw [if_pos hc, if_pos hc, pass_swapEnds]
        rfl
      · rw [if_neg hc, if_neg hc, pass_swapEnds]
        exact ih _ _
    · rw [if_neg (fun h' => hle (hb.mp h')), if_neg hle]
      rfl

/-- C21.  For every objective, accuracy and budget, and every bracket with
`fxMin_ * fxMax_ < 0`, `solve_` gives the same outcome, the same value returned or the
same failure, after the same number of evaluations, when `(xMin_, fxMin_)` and
`(xMax_, fxMax_)` are exchanged. -/
theorem solve_swapEnds (s : FalsePosition α) (f : α → α) (xAccuracy : α)
    (h : s.fxMin_ * s.fxMax_ < 0) :
    (solve_ (swapEnds s) f xAccuracy).1 = (solve_ s f xAccuracy).1 ∧
    (solve_ (swapEnds s) f xAccuracy).2.evaluationNumber_
      = (solve_ s f xAccuracy).2.evaluationNumber_ ∧
    (solve_ (swapEnds s) f xAccuracy).2.root_ = (solve_ s f xAccuracy).2.root_ := by
  have hs : solve_ (swapEnds s) f xAccuracy
      = ((solve_ s f xAccuracy).1, swapEnds (solve_ s f xAccuracy).2) := by
    unfold solve_
    rw [limits_swapEnds s h]
    exact solveLoop_swapEnds f xAccuracy _ s (limits s)
  rw [hs]
  exact ⟨rfl, rfl, rfl⟩

/-- C23.  In exact arithmetic, if `fxMin_ * fxMax_ < 0` on entry, the denominator
`fl - fh` of the root estimate is strictly negative each time the loop test is reached, so
that the division is never a division by zero. -/
theorem denominator_negative (s : FalsePosition α) (f : α → α) (xAccuracy : α)
    (h : s.fxMin_ * s.fxMax_ < 0) (k : Nat) (sk : FalsePosition α) (lk : Locals α)
    (hk : loopHead s f xAccuracy k = some (sk, lk)) :
    lk.fl - lk.fh < 0 ∧ lk.fl - lk.fh ≠ 0 := by
  have h0 := limits_signs s h
  obtain ⟨h1, h2⟩ :=
    loopHeadFrom_signs f xAccuracy k (s, limits s) (sk, lk) h0.1 h0.2 hk
  have : lk.fl - lk.fh < 0 := by
    simp only at h1 h2
    linarith
  exact ⟨this, ne_of_lt this⟩

/-- The loop gives the same result for every bound on the passes that is at least
`maxEvaluations_ + 1 - evaluationNumber_`: the loop test ends the loop by then. -/
theorem solveLoop_bound_irrelevant (f : α → α) (xAccuracy : α) :
    ∀ (n : Nat) (s : FalsePosition α) (l : Locals α),
      s.maxEvaluations_ + 1 - s.evaluationNumber_ ≤ n →
      solveLoop f xAccuracy n s l
        = solveLoop f xAccuracy (s.maxEvaluations_ + 1 - s.evaluationNumber_) s l := by
  intro n
  induction n with
  | zero =>
    intro s l h
    have : s.maxEvaluations_ + 1 - s.evaluationNumber_ = 0 := by omega
    rw [this]
  | succ n ih =>
    intro s l h
    by_cases hb : s.evaluationNumber_ ≤ s.maxEvaluations_
    · obtain ⟨k, hk⟩ : ∃ k, s.maxEvaluations_ + 1 - s.evaluationNumber_ = k + 1 :=
        ⟨s.maxEvaluations_ - s.evaluationNumber_, by omega⟩
      rw [hk]
      simp only [solveLoop]
      rw [if_pos hb, if_pos hb]
      by_cases hc : converged xAccuracy (pass f s l) = true
      · rw [if_pos hc, if_pos hc]
      · rw [if_neg hc, if_neg hc]
        have hk' : (pass f s l).solver.maxEvaluations_ + 1
            - (pass f s l).solver.evaluationNumber_ = k := by
          rw [pass_maxEvaluations, pass_evaluationNumber]
          omega
        rw [ih (pass f s l).solver (pass f s l).locals (by omega), hk']
    · have : s.maxEvaluations_ + 1 - s.evaluationNumber_ = 0 := by omega
      rw [this]
      simp only [solveLoop]
      rw [if_neg hb]

/-- The counter grows in the loop by at most the bound on the passes. -/
theorem solveLoop_counter (f : α → α) (xAccuracy : α) :
    ∀ (n : Nat) (s : FalsePosition α) (l : Locals α),
      s.evaluationNumber_ ≤ (solveLoop f xAccuracy n s l).2.evaluationNumber_ ∧
      (solveLoop f xAccuracy n s l).2.evaluationNumber_ ≤ s.evaluationNumber_ + n := by
  intro n
  induction n with
  | zero =>
    intro s l
    simp [solveLoop]
  | succ n ih =>
    intro s l
    simp only [solveLoop]
    by_cases hb : s.evaluationNumber_ ≤ s.maxEvaluations_
    · rw [if_pos hb]
      by_cases hc : converged xAccuracy (pass f s l) = true
      · rw [if_pos hc]
        show _ ≤ (pass f s l).solver.evaluationNumber_ ∧
          (pass f s l).solver.evaluationNumber_ ≤ _
        rw [pass_evaluationNumber]
        omega
      · rw [if_neg hc]
        have := ih (pass f s l).solver (pass f s l).locals
        rw [pass_evaluationNumber] at this
        omega
    · rw [if_neg hb]
      exact ⟨Nat.le_refl _, Nat.le_add_right _ _⟩

theorem estimate_between (xl xh fl fh : α) (hfl : fl < 0) (hfh : 0 < fh) :
    (xl < xh → xl < xl + (xh - xl) * fl / (fl - fh) ∧ xl + (xh - xl) * fl / (fl - fh) < xh) ∧
    (xh < xl → xh < xl + (xh - xl) * fl / (fl - fh) ∧ xl + (xh - xl) * fl / (fl - fh) < xl) := by
  have hD : fl - fh < 0 := by linarith
  have ht0 : 0 < fl / (fl - fh) := div_pos_of_neg_of_neg hfl hD
  have ht1 : fl / (fl - fh) < 1 := by
    rw [div_lt_one_of_neg hD]
    linarith
  have he : xl + (xh - xl) * fl / (fl - fh) = xl + (xh - xl) * (fl / (fl - fh)) := by
    rw [mul_div_assoc]
  rw [he]
  constructor
  · intro h
    have h1 := mul_pos (sub_pos.mpr h) ht0
    have h2 := mul_pos (sub_pos.mpr h) (sub_pos.mpr ht1)
    constructor <;> nlinarith
  · intro h
    have h1 := mul_pos (sub_pos.mpr h) ht0
    have h2 := mul_pos (sub_pos.mpr h) (sub_pos.mpr ht1)
    constructor <;> nlinarith

theorem pass_ends (f : α → α) (t : FalsePosition α) (l : Locals α) :
    ((pass f t l).froot < 0 →
      (pass f t l).locals.xl = (pass f t l).solver.root_ ∧ (pass f t l).locals.xh = l.xh) ∧
    (¬ (pass f t l).froot < 0 →
      (pass f t l).locals.xh = (pass f t l).solver.root_ ∧ (pass f t l).locals.xl = l.xl) := by
  by_cases h : f (l.xl + l.dx * l.fl / (l.fl - l.fh)) < 0 <;> simp [pass, h]

/-- One pass on a bracket with `fl < 0 < fh`, `dx = xh - xl` and distinct ends: the
estimate lies strictly between the ends, and the new bracket has distinct ends and lies
in the old one, one of its ends strictly inside. -/
theorem pass_bracket (f : α → α) (t : FalsePosition α) (l : Locals α) (hfl : l.fl < 0)
    (hfh : 0 < l.fh) (hdx : l.dx = l.xh - l.xl) (hne : l.xl ≠ l.xh) :
    (min l.xl l.xh < (pass f t l).solver.root_ ∧
      (pass f t l).solver.root_ < max l.xl l.xh) ∧
    (pass f t l).locals.xl ≠ (pass f t l).locals.xh ∧
    min l.xl l.xh ≤ min (pass f t l).locals.xl (pass f t l).locals.xh ∧
    max (pass f t l).locals.xl (pass f t l).locals.xh ≤ max l.xl l.xh ∧
    (min l.xl l.xh < min (pass f t l).locals.xl (pass f t l).locals.xh ∨
      max (pass f t l).locals.xl (pass f t l).locals.xh < max l.xl l.xh) := by
  have hr : (pass f t l).solver.root_ = l.xl + (l.xh - l.xl) * l.fl / (l.fl - l.fh) := by
    rw [pass_root, hdx]
  have hb := estimate_between l.xl l.xh l.fl l.fh hfl hfh
  rw [← hr] at hb
  have he := pass_ends f t l
  rcases lt_or_gt_of_ne hne with hlt | hgt
  · obtain ⟨h1, h2⟩ := hb.1 hlt
    rw [min_eq_left (le_of_lt hlt), max_eq_right (le_of_lt hlt)]
    by_cases hs : (pass f t l).froot < 0
    · obtain ⟨e1, e2⟩ := he.1 hs
      rw [e1, e2, min_eq_left (le_of_lt h2), max_eq_right (le_of_lt h2)]
      exact ⟨⟨h1, h2⟩, ne_of_lt h2, le_of_lt h1, le_refl _, Or.inl h1⟩
    · obtain ⟨e1, e2⟩ := he.2 hs
      rw [e1, e2, min_eq_left (le_of_lt h1), max_eq_right (le_of_lt h1)]
      exact ⟨⟨h1, h2⟩, ne_of_lt h1, le_refl _, le_of_lt h2, Or.inr h2⟩
  · obtain ⟨h1, h2⟩ := hb.2 hgt
    rw [min_eq_right (le_of_lt hgt), max_eq_left (le_of_lt hgt)]
    by_cases hs : (pass f t l).froot < 0
    · obtain ⟨e1, e2⟩ := he.1 hs
      rw [e1, e2, min_eq_right (le_of_lt h1), max_eq_left (le_of_lt h1)]
      exact ⟨⟨h1, h2⟩, ne_of_gt h1, le_refl _, le_of_lt h2, Or.inr h2⟩
    · obtain ⟨e1, e2⟩ := he.2 hs
      rw [e1, e2, min_eq_right (le_of_lt h2), max_eq_left (le_of_lt h2)]
      exact ⟨⟨h1, h2⟩, ne_of_gt h2, le_of_lt h1, le_refl _, Or.inl h1⟩

/-- Each time the loop test is reached the bracket has `fl < 0 < fh`, `dx = xh - xl` and
distinct ends, and lies between `lo` and `hi`, if it was so when the loop was entered. -/
theorem loopHeadFrom_bracket (f : α → α) (xAccuracy : α) (lo hi : α) :
    ∀ (k : Nat) (x y : FalsePosition α × Locals α),
      (x.2.fl < 0 ∧ 0 < x.2.fh ∧ x.2.dx = x.2.xh - x.2.xl ∧ x.2.xl ≠ x.2.xh ∧
        lo ≤ min x.2.xl x.2.xh ∧ max x.2.xl x.2.xh ≤ hi) →
      loopHeadFrom f xAccuracy k x = some y →
      (y.2.fl < 0 ∧ 0 < y.2.fh ∧ y.2.dx = y.2.xh - y.2.xl ∧ y.2.xl ≠ y.2.xh ∧
        lo ≤ min y.2.xl y.2.xh ∧ max y.2.xl y.2.xh ≤ hi) := by
  intro k
  induction k with
  | zero =>
    intro x y hx h
    simp only [loopHeadFrom, Option.some.injEq] at h
    subst h
    exact hx
  | succ k ih =>
    intro x y hx h
    obtain ⟨z, hz, hn⟩ := (loopHeadFrom_succ_eq_some f xAccuracy k x y).mp h
    obtain ⟨z1, z2, z3, z4, z5, z6⟩ := ih x z hx hz
    obtain ⟨_, hc, hy⟩ := (nextHead_eq_some f xAccuracy z y).mp hn
    subst hy
    obtain ⟨s1, s2⟩ := pass_signs f xAccuracy z.1 z.2 z1 z2 hc
    obtain ⟨_, b2, b3, b4, _⟩ := pass_bracket f z.1 z.2 z1 z2 z3 z4
    exact ⟨s1, s2, pass_dx f z.1 z.2, b2, le_trans z5 b3, le_trans b4 z6⟩

theorem limits_bracket (s : FalsePosition α) (h : s.fxMin_ * s.fxMax_ < 0)
    (hx : s.xMin_ ≠ s.xMax_) :
    (limits s).fl < 0 ∧ 0 < (limits s).fh ∧ (limits s).dx = (limits s).xh - (limits s).xl ∧
    (limits s).xl ≠ (limits s).xh ∧
    min s.xMin_ s.xMax_ ≤ min (limits s).xl (limits s).xh ∧
    max (limits s).xl (limits s).xh ≤ max s.xMin_ s.xMax_ := by
  obtain ⟨h1, h2⟩ := limits_signs s h
  refine ⟨h1, h2, limits_dx s, ?_, ?_, ?_⟩
  · unfold limits
    split
    · exact hx
    · exact Ne.symm hx
  · unfold limits
    split
    · exact le_refl _
    · exact le_of_eq (min_comm _ _)
  · unfold limits
    split
    · exact le_refl _
    · exact le_of_eq (max_comm _ _)

/-- C22.  In exact arithmetic, if `fxMin_ * fxMax_ < 0` and `xMin_ != xMax_`, every root
estimate of `solve_` lies strictly between the ends `xl` and `xh` of the bracket as it
stands when the pass begins; the bracket after the pass lies in the one before it, with
one end strictly inside; and a value returned lies strictly between `xMin_` and
`xMax_`. -/
theorem root_estimate_inside_bracket (s : FalsePosition α) (f : α → α) (xAccuracy : α)
    (h : s.fxMin_ * s.fxMax_ < 0) (hx : s.xMin_ ≠ s.xMax_) :
    (∀ (k : Nat) (sk : FalsePosition α) (lk : Locals α),
      loopHead s f xAccuracy k = some (sk, lk) →
      (min lk.xl lk.xh < (pass f sk lk).solver.root_ ∧
        (pass f sk lk).solver.root_ < max lk.xl lk.xh) ∧
      min lk.xl lk.xh ≤ min (pass f sk lk).locals.xl (pass f sk lk).locals.xh ∧
      max (pass f sk lk).locals.xl (pass f sk lk).locals.xh ≤ max lk.xl lk.xh ∧
      (min lk.xl lk.xh < min (pass f sk lk).locals.xl (pass f sk lk).locals.xh ∨
        max (pass f sk lk).locals.xl (pass f sk lk).locals.xh < max lk.xl lk.xh)) ∧
    (∀ (r : α) (s' : FalsePosition α), solve_ s f xAccuracy = (.ok r, s') →
      min s.xMin_ s.xMax_ < r ∧ r < max s.xMin_ s.xMax_) := by
  have hinv : ∀ (k : Nat) (sk : FalsePosition α) (lk : Locals α),
      loopHead s f xAccuracy k = some (sk, lk) →
      (lk.fl < 0 ∧ 0 < lk.fh ∧ lk.dx = lk.xh - lk.xl ∧ lk.xl ≠ lk.xh ∧
        min s.xMin_ s.xMax_ ≤ min lk.xl lk.xh ∧ max lk.xl lk.xh ≤ max s.xMin_ s.xMax_) :=
    fun k sk lk hk => loopHeadFrom_bracket f xAccuracy _ _ k (s, limits s) (sk, lk)
      (limits_bracket s h hx) hk
  refine ⟨?_, ?_⟩
  · intro k sk lk hk
    obtain ⟨z1, z2, z3, z4, _, _⟩ := hinv k sk lk hk
    obtain ⟨b1, _, b3, b4, b5⟩ := pass_bracket f sk lk z1 z2 z3 z4
    exact ⟨b1, b3, b4, b5⟩
  · intro r s' hok
    obtain ⟨k, sk, lk, hk, _, _, hr, _⟩ := (solve_ok_iff s f xAccuracy r s').mp hok
    obtain ⟨z1, z2, z3, z4, z5, z6⟩ := hinv k sk lk hk
    obtain ⟨b1, _⟩ := pass_bracket f sk lk z1 z2 z3 z4
    rw [hr]
    exact ⟨lt_of_le_of_lt z5 b1.1, lt_of_lt_of_le b1.2 z6⟩

end SolverMore

section SolverMoreInstances

/-- C21 on `x^2 - 2`: with the ends given as `(2, 2)` and `(0, -2)` instead of `(0, -2)`
and `(2, 2)`, `solve_` returns the same `4756/3363` after the same ten evaluations. -/
theorem solve_swapEnds_witness :
    (sqrtTwoSolver 100).fxMin_ * (sqrtTwoSolver 100).fxMax_ < 0 ∧
    (swapEnds (sqrtTwoSolver 100)).xMin_ = 2 ∧ (swapEnds (sqrtTwoSolver 100)).fxMin_ = 2 ∧
    (solve_ (swapEnds (sqrtTwoSolver 100)) sqrtTwoObjective (1 / 1000000)).1
      = .ok (4756 / 3363) ∧
    (solve_ (swapEnds (sqrtTwoSolver 100)) sqrtTwoObjective
      (1 / 1000000)).2.evaluationNumber_ = 10 := by
  have h := solve_swapEnds (sqrtTwoSolver 100) sqrtTwoObjective (1 / 1000000)
    (by norm_num [sqrtTwoSolver])
  have hs : solve_ (sqrtTwoSolver 100) sqrtTwoObjective (1 / 1000000)
      = (.ok (4756 / 3363), sqrtTwoSolverAt (4756 / 3363) 100 10) :=
    solve_sqrtTwo_budget_hundred 0 0 (by omega)
  refine ⟨by norm_num [sqrtTwoSolver], rfl, rfl, ?_, ?_⟩
  · rw [h.1, hs]
  · rw [h.2.1, hs]
    rfl

/-- C22 on `x^2 - 2` over `[0, 2]`: the value returned lies strictly between the ends. -/
theorem root_estimate_inside_bracket_witness :
    (sqrtTwoSolver 100).fxMin_ * (sqrtTwoSolver 100).fxMax_ < 0 ∧
    (sqrtTwoSolver 100).xMin_ ≠ (sqrtTwoSolver 100).xMax_ ∧
    (min (sqrtTwoSolver 100).xMin_ (sqrtTwoSolver 100).xMax_ < 4756 / 3363 ∧
      (4756 / 3363 : ℚ) < max (sqrtTwoSolver 100).xMin_ (sqrtTwoSolver 100).xMax_) :=
  ⟨by norm_num [sqrtTwoSolver], by norm_num [sqrtTwoSolver],
    (root_estimate_inside_bracket (sqrtTwoSolver 100) sqrtTwoObjective (1 / 1000000)
      (by norm_num [sqrtTwoSolver]) (by norm_num [sqrtTwoSolver])).2 _ _
      (solve_sqrtTwo_budget_hundred 0 0 (by omega))⟩

/-- C23 on `x^2 - 2` over `[0, 2]`: at the second loop test the denominator is `-1 - 2`. -/
theorem denominator_negative_witness :
    (sqrtTwoSolver 5).fxMin_ * (sqrtTwoSolver 5).fxMax_ < 0 ∧
    loopHead (sqrtTwoSolver 5) sqrtTwoObjective (1 / 1000000) 1
      = some (sqrtTwoSolverAt 1 5 1, sqrtTwoLocals 1) ∧
    ((sqrtTwoLocals 1).fl - (sqrtTwoLocals 1).fh < 0 ∧
      (sqrtTwoLocals 1).fl - (sqrtTwoLocals 1).fh ≠ 0) :=
  ⟨by norm_num [sqrtTwoSolver], loopHead_sqrtTwo_one 4,
    denominator_negative (sqrtTwoSolver 5) sqrtTwoObjective (1 / 1000000)
      (by norm_num [sqrtTwoSolver]) 1 _ _ (loopHead_sqrtTwo_one 4)⟩

end SolverMoreInstances

end FalsePosition

end Solvers1D

namespace ShortRateModels

section RealValue

theorem sum_squares_nonneg (xs : List ℝ) : 0 ≤ (xs.map (fun x => x * x)).sum := by
  induction xs with
  | nil => simp
  | cons x xs ih =>
    simp only [List.map_cons, List.sum_cons]
    nlinarith [mul_self_nonneg x]

theorem sum_squares_eq_zero_iff (xs : List ℝ) :
    (xs.map (fun x => x * x)).sum = 0 ↔ ∀ x ∈ xs, x = 0 := by
  induction xs with
  | nil => simp
  | cons x xs ih =>
    simp only [List.map_cons, List.sum_cons, List.mem_cons, forall_eq_or_imp]
    have h1 := mul_self_nonneg x
    have h2 := sum_squares_nonneg xs
    constructor
    · intro h
      have hx : x * x = 0 := by linarith
      have hs : (xs.map (fun x => x * x)).sum = 0 := by linarith
      exact ⟨mul_self_eq_zero.mp hx, ih.mp hs⟩
    · rintro ⟨hx, hs⟩
      rw [hx, ih.mpr hs]
      simp

/-- C25.  Over the reals, for every vector `v` of the total arity of the model,
`value(v)` is non-negative, and it is zero iff `calibrationError()` of every instrument is
zero on the model into which `v` has been set; for an empty list of instruments it is
zero. -/
theorem value_nonneg_and_zero_iff (instruments : List (CalibrationHelper ℝ)) (m : Model ℝ)
    (v : List ℝ) (hv : v.length = m.totalArity) :
    ∃ y : ℝ, (CalibrationFunction.value Real.sqrt instruments m v).1 = .ok y ∧ 0 ≤ y ∧
      (y = 0 ↔ ∀ h ∈ instruments, h.calibrationError (m.setParams v).2 = 0) ∧
      (instruments = [] → y = 0) := by
  have hval := value_ok Real.sqrt instruments m v hv
  rw [valueLoop_eq_sum instruments _ instruments.length 0 0 (by omega)] at hval
  simp only [List.drop_zero, zero_add] at hval
  have hmap : (instruments.map (fun h =>
        h.calibrationError (m.setParams v).2 * h.calibrationError (m.setParams v).2))
      = ((instruments.map (fun h => h.calibrationError (m.setParams v).2)).map
          (fun x => x * x)) := by
    rw [List.map_map]
    rfl
  rw [hmap] at hval
  refine ⟨_, hval, Real.sqrt_nonneg _, ?_, ?_⟩
  · rw [Real.sqrt_eq_zero (sum_squares_nonneg _), sum_squares_eq_zero_iff]
    simp
  · intro he
    subst he
    simp

/-- C25 on a model with one scalar and an empty list of instruments. -/
theorem value_nonneg_and_zero_iff_witness :
    ([1] : List ℝ).length
      = (Model.mk [{ params_ := [0] }] [] : Model ℝ).totalArity ∧
    ∃ y : ℝ, (CalibrationFunction.value Real.sqrt []
        (Model.mk [{ params_ := [0] }] [] : Model ℝ) [1]).1 = .ok y ∧ 0 ≤ y ∧
      (y = 0 ↔ ∀ h ∈ ([] : List (CalibrationHelper ℝ)),
        h.calibrationError ((Model.mk [{ params_ := [0] }] [] : Model ℝ).setParams [1]).2 = 0) ∧
      (([] : List (CalibrationHelper ℝ)) = [] → y = 0) :=
  ⟨rfl, value_nonneg_and_zero_iff [] (Model.mk [{ params_ := [0] }] []) [1] rfl⟩

end RealValue

section FailureState

variable {α : Type} [Inhabited α]

/-- C26.  When `setParams` is called with a vector of length `n` strictly less than the
total arity, then at the failure the first `n` scalars in flattened order hold the `n`
elements of the vector and every later scalar has its previous value; when the vector is
longer than the total arity, every scalar holds the leading element of the vector at its
position when the failure is raised. -/
theorem setParams_state_at_failure (m : Model α) (v : List α) :
    (v.length < m.totalArity →
      (m.setParams v).1 = .error "Parameter array too small" ∧
      (((m.setParams v).2.arguments_.map Parameter.params).flatten).take v.length = v ∧
      (((m.setParams v).2.arguments_.map Parameter.params).flatten).drop v.length
        = ((m.arguments_.map Parameter.params).flatten).drop v.length) ∧
    (m.totalArity < v.length →
      (m.setParams v).1 = .error "Parameter array too big!" ∧
      ((m.setParams v).2.arguments_.map Parameter.params).flatten
        = v.take m.totalArity) := by
  refine ⟨fun hlt => ?_, fun hgt => ?_⟩
  · obtain ⟨he, _, hf, _⟩ := setParams_small m v hlt
    rw [← flat_eq_flatten, ← flat_eq_flatten, hf]
    refine ⟨he, ?_, ?_⟩
    · rw [List.take_append_of_le_length (by omega), List.take_length]
    · rw [List.drop_append_of_le_length (by omega), List.drop_length, List.nil_append]
  · obtain ⟨he, _, hf, _⟩ := setParams_big m v hgt
    rw [← flat_eq_flatten, hf]
    exact ⟨he, rfl⟩

/-- C26 on the example model: of `[7, 8]` both elements are assigned and the third scalar
stays; of `[1, 2, 3, 4]` the first three are assigned. -/
theorem setParams_state_at_failure_witness :
    ([7, 8] : List Int).length < exampleModel.totalArity ∧
    ((exampleModel.setParams [7, 8]).2.arguments_.map Parameter.params).flatten = [7, 8, 0] ∧
    (((exampleModel.setParams [7, 8]).2.arguments_.map Parameter.params).flatten).take
      ([7, 8] : List Int).length = [7, 8] ∧
    exampleModel.totalArity < ([1, 2, 3, 4] : List Int).length ∧
    ((exampleModel.setParams [1, 2, 3, 4]).2.arguments_.map Parameter.params).flatten
      = ([1, 2, 3, 4] : List Int).take exampleModel.totalArity :=
  ⟨by decide, by decide,
    ((setParams_state_at_failure exampleModel [7, 8]).1 (by decide)).2.1,
    by decide,
    ((setParams_state_at_failure exampleModel [1, 2, 3, 4]).2 (by decide)).2⟩

end FailureState

end ShortRateModels

end QuantLib

/-! ## The filtering iterator -/

namespace QuantLib

namespace Utilities

namespace FilteringIterator

section Filtering

variable {α : Type}

theorem satisfying_of_lt (data : List α) (p : α → Bool) (it end_ : Nat) (h : it < end_) :
    satisfying data p it end_
      = if (data[it]?).any p then it :: satisfying data p (it + 1) end_
        else satisfying data p (it + 1) end_ := by
  unfold satisfying
  have he : end_ - it = (end_ - (it + 1)) + 1 := by omega
  rw [he, List.range'_succ, List.filter_cons]

theorem satisfying_of_ge (data : List α) (p : α → Bool) (it end_ : Nat) (h : end_ ≤ it) :
    satisfying data p it end_ = [] := by
  unfold satisfying
  have he : end_ - it = 0 := by omega
  rw [he]
  rfl

theorem mem_satisfying (data : List α) (p : α → Bool) (it end_ j : Nat) :
    j ∈ satisfying data p it end_ ↔
      (it ≤ j ∧ j < end_ ∧ ∃ x, data[j]? = some x ∧ p x = true) := by
  unfold satisfying
  rw [List.mem_filter, List.mem_range'_1]
  constructor
  · rintro ⟨⟨h1, h2⟩, h3⟩
    refine ⟨h1, by omega, ?_⟩
    cases hd : data[j]? with
    | none => rw [hd] at h3; simp at h3
    | some x => rw [hd] at h3; exact ⟨x, rfl, by simpa using h3⟩
  · rintro ⟨h1, h2, x, hx, hp⟩
    refine ⟨⟨h1, (by omega)⟩, ?_⟩
    rw [hx]
    simpa using hp

theorem satisfying_pairwise (data : List α) (p : α → Bool) (it end_ : Nat) :
    (satisfying data p it end_).Pairwise (fun a b => a < b) := by
  unfold satisfying
  exact List.Pairwise.filter _ (List.pairwise_lt_range' it (end_ - it))

/-- What the loop of the constructor and of the increment does from position `it` on a
sequence that reaches at least to `end_`: it stops at the first position of `[it, end_)`
whose element satisfies `p_`; when there is none it applies `p_` at `end_`, and stops
there if the sequence has an element at `end_`, and fails if it has none. -/
theorem skip_spec (data : List α) (p : α → Bool) (end_ : Nat) (hend : end_ ≤ data.length) :
    ∀ (d it : Nat), end_ - it ≤ d → it ≤ end_ →
      (∀ j rest, satisfying data p it end_ = j :: rest →
        (skip p end_ (data.drop it) it).1 = .ok j) ∧
      (satisfying data p it end_ = [] →
        end_ ∈ (skip p end_ (data.drop it) it).2 ∧
        (end_ < data.length → (skip p end_ (data.drop it) it).1 = .ok end_) ∧
        (end_ = data.length →
          (skip p end_ (data.drop it) it).1 = .error "dereference outside the sequence")) := by
  intro d
  induction d with
  | zero =>
    intro it hd hit
    have he : it = end_ := by omega
    subst he
    rw [satisfying_of_ge data p it it (Nat.le_refl _)]
    refine ⟨fun j rest h => (by cases h), fun _ => ?_⟩
    rcases Nat.lt_or_ge it data.length with hlt | hge
    · rw [List.drop_eq_getElem_cons hlt]
      refine ⟨?_, fun _ => ?_, fun h => absurd h (by omega)⟩ <;> simp [skip]
    · rw [List.drop_of_length_le hge]
      refine ⟨?_, fun h => absurd h (by omega), fun _ => ?_⟩ <;> simp [skip]
  | succ d ih =>
    intro it hd hit
    rcases Nat.lt_or_ge it end_ with hlt | hge
    · have hlen : it < data.length := by omega
      have hget : data[it]? = some data[it] := List.getElem?_eq_getElem hlen
      rw [satisfying_of_lt data p it end_ hlt, hget, List.drop_eq_getElem_cons hlen]
      have hne : it ≠ end_ := by omega
      by_cases hp : p data[it] = true
      · simp only [Option.any, hp, if_true]
        refine ⟨fun j rest h => ?_, fun h => (by cases h)⟩
        simp only [List.cons.injEq] at h
        simp [skip, hp, h.1.symm]
      · have hp' : p data[it] = false := by simpa using hp
        simp only [Option.any, hp', Bool.false_eq_true, if_false]
        obtain ⟨h1, h2⟩ := ih (it + 1) (by omega) (by omega)
        have hs : skip p end_ (data[it] :: data.drop (it + 1)) it
            = ((skip p end_ (data.drop (it + 1)) (it + 1)).1,
                it :: (skip p end_ (data.drop (it + 1)) (it + 1)).2) := by
          simp [skip, hp', hne]
        rw [hs]
        refine ⟨h1, fun hnil => ?_⟩
        obtain ⟨m1, m2, m3⟩ := h2 hnil
        exact ⟨List.mem_cons_of_mem _ m1, m2, m3⟩
    · have he : it = end_ := by omega
      subst he
      exact ih it (by omega) (Nat.le_refl _)

theorem satisfying_cons (data : List α) (p : α → Bool) (end_ : Nat) :
    ∀ (d it j : Nat) (rest : List Nat), end_ - it ≤ d →
      satisfying data p it end_ = j :: rest →
      it ≤ j ∧ j < end_ ∧ rest = satisfying data p (j + 1) end_ := by
  intro d
  induction d with
  | zero =>
    intro it j rest hd h
    rw [satisfying_of_ge data p it end_ (by omega)] at h
    cases h
  | succ d ih =>
    intro it j rest hd h
    rcases Nat.lt_or_ge it end_ with hlt | hge
    · rw [satisfying_of_lt data p it end_ hlt] at h
      by_cases hp : (data[it]?).any p = true
      · rw [if_pos hp] at h
        simp only [List.cons.injEq] at h
        obtain ⟨h1, h2⟩ := h
        subst h1
        exact ⟨Nat.le_refl _, hlt, h2.symm⟩
      · rw [if_neg hp] at h
        obtain ⟨h1, h2, h3⟩ := ih (it + 1) j rest (by omega) h
        exact ⟨by omega, h2, h3⟩
    · rw [satisfying_of_ge data p it end_ hge] at h
      cases h

theorem skip_ge (p : α → Bool) (end_ : Nat) :
    ∀ (l : List α) (it j : Nat), (skip p end_ l it).1 = .ok j → it ≤ j := by
  intro l
  induction l with
  | nil =>
    intro it j h
    simp [skip] at h
  | cons x rest ih =>
    intro it j h
    simp only [skip] at h
    split at h
    · have := ih (it + 1) j h
      omega
    · simp only [Except.ok.injEq] at h
      omega

theorem postIncrement_fst (data : List α) (i : FilteringIterator α) :
    (postIncrement data i).1
      = (skip i.p_ i.end_ (data.drop (i.it_ + 1)) (i.it_ + 1)).1.map
          (fun it_ => (i, { i with it_ := it_ })) := rfl

/-- An iterator standing where the loop of the constructor stops from position `it`, and
advanced by post-increment while it is not at `end_`, stands in turn at the positions of
`[it, end_)` whose element satisfies the predicate, and at no other.  The loop ends with
the iterator at `end_` when the sequence has an element at `end_` or no position
satisfies the predicate; otherwise the post-increment called at the last of these
positions fails. -/
theorem traverse_spec (data : List α) (p : α → Bool) (bb end_ : Nat)
    (hend : end_ ≤ data.length) :
    ∀ (d it j n : Nat), end_ - it ≤ d → it ≤ end_ →
      (skip p end_ (data.drop it) it).1 = .ok j → d < n →
      (traverse data n { p_ := p, it_ := j, beforeBegin_ := bb, end_ := end_ }).1
        = satisfying data p it end_ ∧
      (end_ < data.length →
        (traverse data n { p_ := p, it_ := j, beforeBegin_ := bb, end_ := end_ }).2
          = some (.ok ())) ∧
      (satisfying data p it end_ = [] →
        (traverse data n { p_ := p, it_ := j, beforeBegin_ := bb, end_ := end_ }).2
          = some (.ok ())) ∧
      (end_ = data.length → satisfying data p it end_ ≠ [] →
        (traverse data n { p_ := p, it_ := j, beforeBegin_ := bb, end_ := end_ }).2
          = some (.error "dereference outside the sequence")) := by
  intro d
  induction d with
  | zero =>
    intro it j n hd hit hs hn
    have he : it = end_ := by omega
    subst he
    have hnil := satisfying_of_ge data p it it (Nat.le_refl _)
    rw [hnil]
    obtain ⟨_, h2⟩ := skip_spec data p it hend 0 it (by omega) (Nat.le_refl _)
    obtain ⟨_, m2, m3⟩ := h2 hnil
    have hj : j = it := by
      rcases Nat.lt_or_ge it data.length with hlt | hge
      · rw [m2 hlt] at hs
        injection hs with hs
        exact hs.symm
      · rw [m3 (by omega)] at hs
        cases hs
    subst hj
    obtain ⟨n', rfl⟩ : ∃ n', n = n' + 1 := ⟨n - 1, by omega⟩
    refine ⟨?_, fun _ => ?_, fun _ => ?_, fun _ hne => absurd rfl hne⟩ <;> simp [traverse]
  | succ d ih =>
    intro it j n hd hit hs hn
    obtain ⟨h1, h2⟩ := skip_spec data p end_ hend (d + 1) it hd hit
    obtain ⟨n', rfl⟩ : ∃ n', n = n' + 1 := ⟨n - 1, by omega⟩
    cases hsat : satisfying data p it end_ with
    | nil =>
      obtain ⟨_, m2, m3⟩ := h2 hsat
      have hj : j = end_ := by
        rcases Nat.lt_or_ge end_ data.length with hlt | hge
        · rw [m2 hlt] at hs
          injection hs with hs
          exact hs.symm
        · rw [m3 (by omega)] at hs
          cases hs
      subst hj
      refine ⟨?_, fun _ => ?_, fun _ => ?_, fun _ hne => absurd rfl hne⟩ <;> simp [traverse]
    | cons j' rest =>
      have hj := h1 j' rest hsat
      rw [hj] at hs
      injection hs with hs
      subst hs
      obtain ⟨c1, c2, c3⟩ := satisfying_cons data p end_ (d + 1) it j' rest hd hsat
      have hne : ¬ j' = end_ := by omega
      obtain ⟨g1, g2⟩ := skip_spec data p end_ hend d (j' + 1) (by omega) (by omega)
      have htr : traverse data (n' + 1)
            { p_ := p, it_ := j', beforeBegin_ := bb, end_ := end_ }
          = (match (skip p end_ (data.drop (j' + 1)) (j' + 1)).1 with
            | .ok j2 =>
                (j' :: (traverse data n'
                    { p_ := p, it_ := j2, beforeBegin_ := bb, end_ := end_ }).1,
                  (traverse data n'
                    { p_ := p, it_ := j2, beforeBegin_ := bb, end_ := end_ }).2)
            | .error e => ([j'], some (.error e))) := by
        simp only [traverse, hne, if_false]
        rw [postIncrement_fst]
        simp only
        cases (skip p end_ (data.drop (j' + 1)) (j' + 1)).1 <;> rfl
      rw [htr]
      cases hnext : (skip p end_ (data.drop (j' + 1)) (j' + 1)).1 with
      | ok j2 =>
        simp only
        obtain ⟨i1, i2, _, i4⟩ := ih (j' + 1) j2 n' (by omega) (by omega) hnext (by omega)
        refine ⟨?_, i2, fun h => (by cases h), fun hlen _ => ?_⟩
        · rw [i1, c3]
        · refine i4 hlen (fun hnil => ?_)
          have := (g2 hnil).2.2 hlen
          rw [hnext] at this
          cases this
      | error e =>
        simp only
        have hrest : satisfying data p (j' + 1) end_ = [] := by
          cases hs2 : satisfying data p (j' + 1) end_ with
          | nil => rfl
          | cons a l =>
            have := g1 a l hs2
            rw [hnext] at this
            cases this
        refine ⟨?_, fun hlt => ?_, fun h => (by cases h), fun hlen _ => ?_⟩
        · rw [c3, hrest]
        · have := (g2 hrest).2.1 hlt
          rw [hnext] at this
          cases this
        · have := (g2 hrest).2.2 hlen
          rw [hnext] at this
          injection this with this
          rw [this]

/-- On a range `[begin, end]` inside the sequence, for an iterator constructed at a
position `it` of it and advanced by post-increment while it is not at end.  The
constructor fails when no position from `it` on satisfies the predicate and the sequence
has no element at end, and returns otherwise.  The positions at which the iterator stands
are then exactly the positions from `it` on, before end, whose element satisfies the
predicate, in increasing order, and at each of them the element obtained by `operator*`
satisfies the predicate.  A post-increment that returns, returns the iterator as it was
before the call and has moved forward.  The post-increment called at one of these
positions returns when a later position satisfies the predicate or the sequence has an
element at end, and fails otherwise. -/
theorem traverse_eq_satisfying (data : List α) (p : α → Bool) (it bb end_ : Nat)
    (hit : it ≤ end_) (hend : end_ ≤ data.length) :
    (satisfying data p it end_ = [] → end_ = data.length →
      (make data it p bb end_).1.map FilteringIterator.it_
        = .error "dereference outside the sequence") ∧
    ((satisfying data p it end_ ≠ [] ∨ end_ < data.length) →
      ∃ j, (make data it p bb end_).1.map FilteringIterator.it_ = .ok j ∧
        (traverse data (end_ - it + 1)
            { p_ := p, it_ := j, beforeBegin_ := bb, end_ := end_ }).1
          = satisfying data p it end_ ∧
        (end_ < data.length →
          (traverse data (end_ - it + 1)
              { p_ := p, it_ := j, beforeBegin_ := bb, end_ := end_ }).2 = some (.ok ())) ∧
        (end_ = data.length → satisfying data p it end_ ≠ [] →
          (traverse data (end_ - it + 1)
              { p_ := p, it_ := j, beforeBegin_ := bb, end_ := end_ }).2
            = some (.error "dereference outside the sequence"))) ∧
    (∀ j, j ∈ satisfying data p it end_ ↔
      (it ≤ j ∧ j < end_ ∧ ∃ x, data[j]? = some x ∧ p x = true)) ∧
    (satisfying data p it end_).Pairwise (fun a b => a < b) ∧
    (∀ j ∈ satisfying data p it end_,
      ∃ x, deref data { p_ := p, it_ := j, beforeBegin_ := bb, end_ := end_ } = some x ∧
        p x = true) ∧
    (∀ (i t n : FilteringIterator α), (postIncrement data i).1 = .ok (t, n) →
      t = i ∧ i.it_ < n.it_) ∧
    (∀ j ∈ satisfying data p it end_,
      ((satisfying data p (j + 1) end_ ≠ [] ∨ end_ < data.length) →
        ∃ n, (postIncrement data
            { p_ := p, it_ := j, beforeBegin_ := bb, end_ := end_ }).1
          = .ok ({ p_ := p, it_ := j, beforeBegin_ := bb, end_ := end_ }, n)) ∧
      (satisfying data p (j + 1) end_ = [] → end_ = data.length →
        (postIncrement data
            { p_ := p, it_ := j, beforeBegin_ := bb, end_ := end_ }).1.map
            (fun r => r.2.it_)
          = .error "dereference outside the sequence")) := by
  have hsk : ∀ it', it' ≤ end_ →
      ((satisfying data p it' end_ ≠ [] ∨ end_ < data.length) →
        ∃ j, (skip p end_ (data.drop it') it').1 = .ok j) ∧
      (satisfying data p it' end_ = [] → end_ = data.length →
        (skip p end_ (data.drop it') it').1 = .error "dereference outside the sequence") := by
    intro it' hit'
    obtain ⟨h1, h2⟩ := skip_spec data p end_ hend (end_ - it') it' (Nat.le_refl _) hit'
    refine ⟨fun h => ?_, fun hnil hlen => (h2 hnil).2.2 hlen⟩
    cases hs : satisfying data p it' end_ with
    | nil =>
      rcases h with h | h
      · exact absurd hs h
      · exact ⟨_, (h2 hs).2.1 h⟩
    | cons a l => exact ⟨_, h1 a l hs⟩
  refine ⟨fun hnil hlen => ?_, fun h => ?_, fun j => mem_satisfying data p it end_ j,
    satisfying_pairwise data p it end_, ?_, ?_, ?_⟩
  · simp only [make]
    rw [(hsk it hit).2 hnil hlen]
    rfl
  · obtain ⟨j, hs⟩ := (hsk it hit).1 h
    obtain ⟨t1, t2, _, t4⟩ := traverse_spec data p bb end_ hend (end_ - it) it j
      (end_ - it + 1) (Nat.le_refl _) hit hs (by omega)
    refine ⟨j, ?_, t1, t2, t4⟩
    simp only [make]
    rw [hs]
    rfl
  · intro k hk
    obtain ⟨_, _, x, hx, hp⟩ := (mem_satisfying data p it end_ k).mp hk
    exact ⟨x, hx, hp⟩
  · intro i t n h
    rw [postIncrement_fst] at h
    cases hs2 : (skip i.p_ i.end_ (data.drop (i.it_ + 1)) (i.it_ + 1)).1 with
    | ok j2 =>
      rw [hs2] at h
      simp only [Except.map, Except.ok.injEq, Prod.mk.injEq] at h
      refine ⟨h.1.symm, ?_⟩
      rw [← h.2]
      have := skip_ge i.p_ i.end_ _ _ j2 hs2
      show i.it_ < j2
      omega
    | error e =>
      rw [hs2] at h
      simp only [Except.map] at h
      cases h
  · intro j hj
    obtain ⟨_, hlt, _⟩ := (mem_satisfying data p it end_ j).mp hj
    refine ⟨fun h => ?_, fun hnil hlen => ?_⟩
    · obtain ⟨j2, hs⟩ := (hsk (j + 1) (by omega)).1 h
      refine ⟨{ p_ := p, it_ := j2, beforeBegin_ := bb, end_ := end_ }, ?_⟩
      rw [postIncrement_fst]
      simp only
      rw [hs]
      rfl
    · rw [postIncrement_fst]
      simp only
      rw [(hsk (j + 1) (by omega)).2 hnil hlen]
      rfl

/-- When no position of `[it, end_)` has an element satisfying the predicate, the
constructor applies the predicate at position `end_`. -/
theorem make_tests_end (data : List α) (p : α → Bool) (it bb end_ : Nat) (hit : it ≤ end_)
    (hend : end_ ≤ data.length) (hnone : satisfying data p it end_ = []) :
    end_ ∈ (make data it p bb end_).2 :=
  ((skip_spec data p end_ hend (end_ - it) it (Nat.le_refl _) hit).2 hnone).1

end Filtering

section FilteringInstances

/-- C27 fails on the empty range, where `it`, `begin` and `end` are one position: the
constructor applies the predicate at that position, which is `end`, where the sequence has
no element.  On the range `[0, 2)` of `-1, -3, 4`, where no element is positive, the
iterator is left at `end` as it should be, after the predicate has been applied at the
positions `0`, `1` and at `end` itself. -/
theorem make_applies_predicate_at_end :
    (make ([] : List Int) 0 isPositive 0 0).2 = [0] ∧
    (make ([] : List Int) 0 isPositive 0 0).1.map FilteringIterator.it_
      = .error "dereference outside the sequence" ∧
    (make ([-1, -3, 4] : List Int) 0 isPositive 0 2).1.map FilteringIterator.it_ = .ok 2 ∧
    (make ([-1, -3, 4] : List Int) 0 isPositive 0 2).2 = [0, 1, 2] :=
  ⟨rfl, rfl, rfl, rfl⟩

end FilteringInstances

end FilteringIterator

end Utilities

end QuantLib

/-! ## `FalsePosition::solve_` with the counters of the machine -/

namespace QuantLib

namespace Solvers1D

namespace FalsePosition

set_option linter.unusedSectionVars false

section Machine

variable {α : Type} [LinearOrderedField α]

end Machine

section MachineSqrtTwo

end MachineSqrtTwo

end FalsePosition

end Solvers1D

end QuantLib
